import Mathlib

/-!
# gKits/button: debounced push-button controller

A shallow embedding of `controller.go` (package `button`) together with the
properties of its per-button state machine.

Modelling conventions:

* A Go `time.Time` is an `Int`, the count of nanoseconds on a single time
  line whose origin is Go's zero time; a Go `time.Duration` is an `Int` count
  of nanoseconds, and `time.Sub` saturates at the bounds of a 64-bit
  duration, as the Go standard library documents.
* `time.Now()` is an explicit argument `now` of `Register` and `Update`.
* `machine.Pin.Get` is an explicit argument `get : machine.Pin → Bool` giving
  the electrical level of every pin at the moment of the call (`true` = high).
* A callback `func()` is a value of an arbitrary type `α`; `go action()` is
  recorded as an `Invocation` in the list returned by `Update`.
-/

namespace machine

/-- TinyGo `machine.Pin` is a `uint8` pin number. -/
abbrev Pin := Fin 256

/-- TinyGo `machine.PinMode`; the controller only distinguishes
`PinInputPullup` from every other mode. -/
inductive PinMode where
  | PinOutput
  | PinInput
  | PinInputPulldown
  | PinInputPullup
  deriving DecidableEq, Repr

end machine

namespace time

/-- Go `time.Millisecond`, a duration in nanoseconds. -/
def Millisecond : Int := 1000000

/-- Go `time.Second`, a duration in nanoseconds. -/
def Second : Int := 1000000000

/-- Largest Go `time.Duration`, `1<<63 - 1`. -/
def maxDuration : Int := 9223372036854775807

/-- Smallest Go `time.Duration`, `-1 << 63`. -/
def minDuration : Int := -9223372036854775808

/-- A duration that fits Go's 64-bit `time.Duration`. -/
def validDuration (d : Int) : Prop := minDuration ≤ d ∧ d ≤ maxDuration

instance (d : Int) : Decidable (validDuration d) := by
  unfold validDuration; exact inferInstance

/-- Go `t.Sub(u)`: the duration `t - u`, saturated to the representable range. -/
def Sub (t u : Int) : Int :=
  if t - u > maxDuration then maxDuration
  else if t - u < minDuration then minDuration
  else t - u

end time

namespace gkits

/-- Go `type ActionType uint8`. -/
abbrev ActionType := Fin 256

/-- First constant of the `iota` block. -/
def SingleClick : ActionType := 0

/-- Second constant of the `iota` block. -/
def LongPress : ActionType := 1

/-- Go `type button struct`; absent fields take Go's zero values. -/
structure button where
  pin : machine.Pin
  pullup : Bool := false
  isPressed : Bool := false
  longPressed : Bool := false
  recordedAt : Int := 0
  pressedAt : Int := 0
  deriving DecidableEq, Repr

/-- Go `func (btn *button) readState() bool`: `btn.pullup == btn.pin.Get()`. -/
def button.readState (btn : button) (get : machine.Pin → Bool) : Bool :=
  btn.pullup == get btn.pin

/-- Go `type Controller struct`. The nested map `map[ActionType]map[int]func()`
is a partial function on action types whose values are partial functions on
button ids. -/
structure Controller (α : Type) where
  buttons : List button
  actions : ActionType → Option (Nat → Option α)
  debounceDur : Int
  longPressDur : Int
  pinMode : machine.PinMode

/-- One `go action()` statement that was executed: the action type whose map
was consulted, the button id, and the callback that was started. -/
structure Invocation (α : Type) where
  kind : ActionType
  id : Nat
  action : α
  deriving DecidableEq, Repr

variable {α : Type}

/-- Go `action, ok := c.actions[kind][id]`: indexing a missing inner map
yields `ok = false`. -/
def Controller.lookup (c : Controller α) (kind : ActionType) (id : Nat) : Option α :=
  match c.actions kind with
  | none => none
  | some m => m id

/-- Go `type ControllerOption func(ctrl *Controller)`. -/
abbrev ControllerOption (α : Type) := Controller α → Controller α

/-- Go `WithDebounceDuration`. -/
def WithDebounceDuration (debounce : Int) : ControllerOption α :=
  fun ctrl => { ctrl with debounceDur := debounce }

/-- Go `WithLongPressDuration`. -/
def WithLongPressDuration (longPress : Int) : ControllerOption α :=
  fun ctrl => { ctrl with longPressDur := longPress }

/-- Go `WithPinMode`. -/
def WithPinMode (pinMode : machine.PinMode) : ControllerOption α :=
  fun ctrl => { ctrl with pinMode := pinMode }

/-- Go `NewController`: the defaults, then every option applied in order. -/
def NewController (opts : List (ControllerOption α)) : Controller α :=
  opts.foldl (fun ctrl opt => opt ctrl)
    { buttons := []
      actions := fun _ => none
      debounceDur := 50 * time.Millisecond
      longPressDur := 1 * time.Second
      pinMode := machine.PinMode.PinInputPullup }

/-- Go `Controller.Register`, with `time.Now()` passed as `now`. The call
`pin.Configure` acts on the hardware only and leaves the controller alone. -/
def Controller.Register (c : Controller α) (now : Int) (pin : machine.Pin)
    (actionType : ActionType) (action : α) : Controller α :=
  let id := c.buttons.length
  let buttons := c.buttons ++ [{ pin := pin, recordedAt := now,
                                 pullup := decide (c.pinMode = machine.PinMode.PinInputPullup) }]
  let inner : Nat → Option α :=
    match c.actions actionType with
    | some m => m
    | none => fun _ => none
  let actions : ActionType → Option (Nat → Option α) := fun k =>
    if k = actionType then some (fun j => if j = id then some action else inner j)
    else c.actions k
  { c with buttons := buttons, actions := actions }

/-- Lines 73-82 of `Update`: the debounced edge detector of one button. -/
def Controller.updateEdge (c : Controller α) (now : Int) (get : machine.Pin → Bool)
    (id : Nat) (btn : button) : button × List (Invocation α) :=
  let isPressed := btn.readState get
  if isPressed ≠ btn.isPressed ∧ time.Sub now btn.recordedAt > c.debounceDur then
    let btn := { btn with isPressed := isPressed, recordedAt := now }
    if isPressed = true then
      ({ btn with pressedAt := now }, [])
    else
      (btn,
        match c.lookup SingleClick id with
        | some action =>
          if time.Sub now btn.pressedAt < c.longPressDur then
            [{ kind := SingleClick, id := id, action := action }]
          else []
        | none => [])
  else (btn, [])

/-- Lines 84-93 of `Update`: the long-press detector of one button. -/
def Controller.updateLong (c : Controller α) (now : Int)
    (id : Nat) (btn : button) : button × List (Invocation α) :=
  if btn.isPressed = true ∧ time.Sub now btn.pressedAt ≥ c.longPressDur then
    if btn.longPressed = false then
      ({ btn with longPressed := true },
        match c.lookup LongPress id with
        | some action => [{ kind := LongPress, id := id, action := action }]
        | none => [])
    else (btn, [])
  else if btn.longPressed = false then
    ({ btn with longPressed := false }, [])
  else (btn, [])

/-- The body of the `range` loop of `Update` for the button stored at `id`:
the value written back to `c.buttons[id]` and the callbacks started. -/
def Controller.updateButton (c : Controller α) (now : Int) (get : machine.Pin → Bool)
    (id : Nat) (btn : button) : button × List (Invocation α) :=
  let r1 := c.updateEdge now get id btn
  let r2 := c.updateLong now id r1.1
  (r2.1, r1.2 ++ r2.2)

/-- The `range` loop of `Update` from index `id` on. -/
def Controller.updateLoop (c : Controller α) (now : Int) (get : machine.Pin → Bool) :
    Nat → List button → List button × List (Invocation α)
  | _, [] => ([], [])
  | id, btn :: rest =>
    let r := c.updateButton now get id btn
    let rs := Controller.updateLoop c now get (id + 1) rest
    (r.1 :: rs.1, r.2 ++ rs.2)

/-- Go `Controller.Update`, with `time.Now()` passed as `now`: the controller
after the call and the callbacks started, in program order. -/
def Controller.Update (c : Controller α) (now : Int) (get : machine.Pin → Bool) :
    Controller α × List (Invocation α) :=
  let r := c.updateLoop now get 0 c.buttons
  ({ c with buttons := r.1 }, r.2)

/-- The main loop of the example programs: `Update` called once for every
element of `calls`, each giving the clock reading and the pin levels of that
call. -/
def Controller.Updates (c : Controller α) :
    List (Int × (machine.Pin → Bool)) → Controller α × List (Invocation α)
  | [] => (c, [])
  | call :: calls =>
    let r := c.Update call.1 call.2
    let rs := Controller.Updates r.1 calls
    (rs.1, r.2 ++ rs.2)

/-- The callbacks of `trace` that belong to button `id`. -/
def eventsOf (id : Nat) (trace : List (Invocation α)) : List (Invocation α) :=
  trace.filter (fun e => decide (e.id = id))

/-- The list of callbacks started by
`if action, ok := c.actions[kind][id]; ok { go action() }`. -/
def Controller.started (c : Controller α) (kind : ActionType) (id : Nat) :
    List (Invocation α) :=
  match c.lookup kind id with
  | some action => [{ kind := kind, id := id, action := action }]
  | none => []

/-- The effect of a sequence of `Update` calls on one button, seen alone. -/
def Controller.buttonUpdates (c : Controller α) (id : Nat) (btn : button) :
    List (Int × (machine.Pin → Bool)) → button × List (Invocation α)
  | [] => (btn, [])
  | call :: calls =>
    let r := c.updateButton call.1 call.2 id btn
    let rs := Controller.buttonUpdates c id r.1 calls
    (rs.1, r.2 ++ rs.2)

/-! ## Observers used in the statements -/

/-- The options `WithLongPressDuration` and `WithPinMode` described by data. -/
def otherThanDebounce : Int ⊕ machine.PinMode → ControllerOption α
  | .inl d => WithLongPressDuration d
  | .inr m => WithPinMode m

/-- The options `WithDebounceDuration` and `WithPinMode` described by data. -/
def otherThanLongPress : Int ⊕ machine.PinMode → ControllerOption α
  | .inl d => WithDebounceDuration d
  | .inr m => WithPinMode m

/-- The options `WithDebounceDuration` and `WithLongPressDuration` described
by data. -/
def otherThanPinMode : Int ⊕ Int → ControllerOption α
  | .inl d => WithDebounceDuration d
  | .inr d => WithLongPressDuration d

/-- The clock readings of the calls of `Update`, among `calls`, that change
the committed `isPressed` of button `i`: its committed transitions. -/
def Controller.commitTimes (c : Controller α) (i : Nat) :
    List (Int × (machine.Pin → Bool)) → List Int
  | [] => []
  | call :: calls =>
    let r := c.Update call.1 call.2
    if (r.1.buttons[i]?).map (fun b => b.isPressed) ≠ (c.buttons[i]?).map (fun b => b.isPressed)
    then call.1 :: Controller.commitTimes r.1 i calls
    else Controller.commitTimes r.1 i calls

/-- The three exported options `WithDebounceDuration`, `WithLongPressDuration`
and `WithPinMode`, described by data. -/
inductive BuiltinOption where
  | debounce (d : Int)
  | longPress (d : Int)
  | pinMode (m : machine.PinMode)

/-- The `ControllerOption` that a `BuiltinOption` stands for. -/
def BuiltinOption.toOption : BuiltinOption → ControllerOption α
  | .debounce d => WithDebounceDuration d
  | .longPress d => WithLongPressDuration d
  | .pinMode m => WithPinMode m

/-- One call that a program makes on its controller: `Register` or `Update`,
each with the clock reading of the call, `Update` also with the pin levels. -/
inductive Call (α : Type) where
  | register (now : Int) (pin : machine.Pin) (actionType : ActionType) (action : α)
  | update (now : Int) (get : machine.Pin → Bool)

/-- The controller after a sequence of `Register` and `Update` calls, and the
callbacks started by them, in program order. -/
def Controller.exec (c : Controller α) : List (Call α) → Controller α × List (Invocation α)
  | [] => (c, [])
  | .register now pin actionType action :: rest =>
    Controller.exec (c.Register now pin actionType action) rest
  | .update now get :: rest =>
    let r := c.Update now get
    let rs := Controller.exec r.1 rest
    (rs.1, r.2 ++ rs.2)

/-! ## Concrete scenarios

The basic example program: default options (debounce 50ms, long press 1s,
pull-up), buttons registered 100ms before the clock reading `0`. -/

/-- Every pin reads high. -/
def allHigh : machine.Pin → Bool := fun _ => true

/-- Every pin reads low. -/
def allLow : machine.Pin → Bool := fun _ => false

/-- A default controller with one SingleClick button on pin 15. -/
def clickController : Controller String :=
  (NewController []).Register (-100 * time.Millisecond) 15 SingleClick "single click"

/-- A default controller with one LongPress button on pin 15. -/
def holdController : Controller String :=
  (NewController []).Register (-100 * time.Millisecond) 15 LongPress "long press"

/-- A default controller with one SingleClick button on pin 15, registered at
the clock reading `0`. -/
def lateController : Controller String :=
  (NewController []).Register 0 15 SingleClick "single click"

/-- A controller whose long-press duration (500ms) is below its debounce
duration (1s), with one LongPress button on pin 15. -/
def slowDebounceController : Controller String :=
  (NewController [WithDebounceDuration (1000 * time.Millisecond),
    WithLongPressDuration (500 * time.Millisecond)]).Register
    (-2000 * time.Millisecond) 15 LongPress "long press"

/-- The button that `Register` creates in the two controllers above. -/
def freshButton : button :=
  { pin := 15, pullup := true, recordedAt := -100 * time.Millisecond }

/-- Calls of `Update` every `step` milliseconds, `n` of them, the first at
`start` milliseconds, all reading the pin levels `get`. -/
def polls (start step : Int) (n : Nat) (get : machine.Pin → Bool) :
    List (Int × (machine.Pin → Bool)) :=
  (List.range n).map (fun k => ((start + step * (k : Int)) * time.Millisecond, get))

/-! ## Saturating subtraction -/

theorem Sub_le_of_le {t u d : Int} (hd : time.minDuration ≤ d) (h : t - u ≤ d) :
    time.Sub t u ≤ d := by
  unfold time.Sub
  simp only [time.maxDuration, time.minDuration] at *
  split_ifs <;> omega

theorem Sub_lt_of_lt {t u d : Int} (hd : time.minDuration < d) (h : t - u < d) :
    time.Sub t u < d := by
  unfold time.Sub
  simp only [time.maxDuration, time.minDuration] at *
  split_ifs <;> omega

theorem Sub_ge_of_ge {t u d : Int} (hd : d ≤ time.maxDuration) (h : d ≤ t - u) :
    d ≤ time.Sub t u := by
  unfold time.Sub
  simp only [time.maxDuration, time.minDuration] at *
  split_ifs <;> omega

theorem Sub_gt_of_gt {t u d : Int} (hd : d < time.maxDuration) (h : d < t - u) :
    d < time.Sub t u := by
  unfold time.Sub
  simp only [time.maxDuration, time.minDuration] at *
  split_ifs <;> omega

theorem lt_of_lt_Sub {t u d : Int} (hd : time.minDuration ≤ d) (h : d < time.Sub t u) :
    d < t - u := by
  unfold time.Sub at h
  simp only [time.maxDuration, time.minDuration] at *
  split_ifs at h <;> omega

theorem Sub_self (t : Int) : time.Sub t t = 0 := by
  simp [time.Sub, time.maxDuration, time.minDuration]

/-! ## What one loop iteration changes -/

theorem updateEdge_frame (c : Controller α) (now : Int) (get : machine.Pin → Bool)
    (id : Nat) (btn : button) :
    (c.updateEdge now get id btn).1.pin = btn.pin ∧
    (c.updateEdge now get id btn).1.pullup = btn.pullup ∧
    (c.updateEdge now get id btn).1.longPressed = btn.longPressed := by
  unfold Controller.updateEdge
  simp only
  split_ifs <;> simp

theorem updateLong_frame (c : Controller α) (now : Int) (id : Nat) (btn : button) :
    (c.updateLong now id btn).1.pin = btn.pin ∧
    (c.updateLong now id btn).1.pullup = btn.pullup ∧
    (c.updateLong now id btn).1.isPressed = btn.isPressed ∧
    (c.updateLong now id btn).1.recordedAt = btn.recordedAt ∧
    (c.updateLong now id btn).1.pressedAt = btn.pressedAt := by
  unfold Controller.updateLong
  split_ifs <;> simp

theorem updateButton_readState (c : Controller α) (now : Int)
    (get get2 : machine.Pin → Bool) (id : Nat) (btn : button) :
    (c.updateButton now get id btn).1.readState get2 = btn.readState get2 := by
  have h1 := updateEdge_frame c now get id btn
  have h2 := updateLong_frame c now id (c.updateEdge now get id btn).1
  simp only [Controller.updateButton, button.readState, h2.1, h2.2.1, h1.1, h1.2.1]

theorem updateEdge_id (c : Controller α) (now : Int) (get : machine.Pin → Bool)
    (id : Nat) (btn : button) :
    ∀ e ∈ (c.updateEdge now get id btn).2, e.id = id := by
  intro e he
  unfold Controller.updateEdge at he
  cases hl : c.lookup SingleClick id <;> simp only [hl] at he <;> split_ifs at he <;> simp_all

theorem updateLong_id (c : Controller α) (now : Int) (id : Nat) (btn : button) :
    ∀ e ∈ (c.updateLong now id btn).2, e.id = id := by
  unfold Controller.updateLong
  split_ifs <;> try simp
  split <;> simp

theorem updateButton_id (c : Controller α) (now : Int) (get : machine.Pin → Bool)
    (id : Nat) (btn : button) :
    ∀ e ∈ (c.updateButton now get id btn).2, e.id = id := by
  intro e he
  simp only [Controller.updateButton, List.mem_append] at he
  rcases he with he | he
  · exact updateEdge_id c now get id btn e he
  · exact updateLong_id c now id _ e he

/-! ## From the controller to a single button -/

theorem updateLoop_buttons (c : Controller α) (now : Int) (get : machine.Pin → Bool) :
    ∀ (bs : List button) (k j : Nat),
      (c.updateLoop now get k bs).1[j]? =
        (bs[j]?).map (fun b => (c.updateButton now get (k + j) b).1) := by
  intro bs
  induction bs with
  | nil => intro k j; simp [Controller.updateLoop]
  | cons b rest ih =>
    intro k j
    cases j with
    | zero => simp [Controller.updateLoop]
    | succ j =>
      simp only [Controller.updateLoop, List.getElem?_cons_succ]
      rw [ih (k + 1) j]
      have : k + 1 + j = k + (j + 1) := by omega
      rw [this]

theorem eventsOf_append (i : Nat) (xs ys : List (Invocation α)) :
    eventsOf i (xs ++ ys) = eventsOf i xs ++ eventsOf i ys := by
  simp [eventsOf]

theorem eventsOf_same (i : Nat) (xs : List (Invocation α)) (h : ∀ e ∈ xs, e.id = i) :
    eventsOf i xs = xs := by
  simp only [eventsOf, List.filter_eq_self]
  intro e he
  simp [h e he]

theorem eventsOf_other (i : Nat) (xs : List (Invocation α)) (h : ∀ e ∈ xs, e.id ≠ i) :
    eventsOf i xs = [] := by
  simp only [eventsOf, List.filter_eq_nil_iff]
  intro e he
  simp [h e he]

theorem updateLoop_events_lt (c : Controller α) (now : Int) (get : machine.Pin → Bool) :
    ∀ (bs : List button) (k i : Nat), i < k →
      eventsOf i (c.updateLoop now get k bs).2 = [] := by
  intro bs
  induction bs with
  | nil => intro k i _; simp [Controller.updateLoop, eventsOf]
  | cons b rest ih =>
    intro k i hik
    simp only [Controller.updateLoop, eventsOf_append]
    rw [ih (k + 1) i (by omega), List.append_nil]
    apply eventsOf_other
    intro e he
    have := updateButton_id c now get k b e he
    omega

theorem updateLoop_events (c : Controller α) (now : Int) (get : machine.Pin → Bool) :
    ∀ (bs : List button) (k j : Nat) (b : button), bs[j]? = some b →
      eventsOf (k + j) (c.updateLoop now get k bs).2 = (c.updateButton now get (k + j) b).2 := by
  intro bs
  induction bs with
  | nil => intro k j b h; simp at h
  | cons b0 rest ih =>
    intro k j b h
    cases j with
    | zero =>
      simp only [List.getElem?_cons_zero, Option.some.injEq] at h
      subst h
      simp only [Controller.updateLoop, eventsOf_append, Nat.add_zero]
      rw [updateLoop_events_lt c now get rest (k + 1) k (by omega), List.append_nil]
      exact eventsOf_same _ _ (updateButton_id c now get k b0)
    | succ j =>
      simp only [List.getElem?_cons_succ] at h
      simp only [Controller.updateLoop, eventsOf_append]
      have hk : k + (j + 1) = k + 1 + j := by omega
      rw [hk, ih (k + 1) j b h]
      rw [eventsOf_other, List.nil_append]
      intro e he
      have := updateButton_id c now get k b0 e he
      omega

/-- One `Update` seen from button `i`: its new state and its callbacks are
those of the loop body run on its old state. -/
theorem Update_button (c : Controller α) (now : Int) (get : machine.Pin → Bool)
    (i : Nat) (b : button) (h : c.buttons[i]? = some b) :
    (c.Update now get).1.buttons[i]? = some (c.updateButton now get i b).1 ∧
    eventsOf i (c.Update now get).2 = (c.updateButton now get i b).2 := by
  constructor
  · simp only [Controller.Update]
    rw [updateLoop_buttons c now get c.buttons 0 i, h]
    simp
  · have := updateLoop_events c now get c.buttons 0 i b h
    simpa [Controller.Update] using this

theorem Update_config (c : Controller α) (now : Int) (get : machine.Pin → Bool) :
    (c.Update now get).1.actions = c.actions ∧
    (c.Update now get).1.debounceDur = c.debounceDur ∧
    (c.Update now get).1.longPressDur = c.longPressDur ∧
    (c.Update now get).1.pinMode = c.pinMode := by
  simp [Controller.Update]

theorem buttonUpdates_congr (c d : Controller α) (ha : d.actions = c.actions)
    (hd : d.debounceDur = c.debounceDur) (hl : d.longPressDur = c.longPressDur)
    (i : Nat) (calls : List (Int × (machine.Pin → Bool))) :
    ∀ b : button, d.buttonUpdates i b calls = c.buttonUpdates i b calls := by
  induction calls with
  | nil => intro b; rfl
  | cons call calls ih =>
    intro b
    have hstep : d.updateButton call.1 call.2 i b = c.updateButton call.1 call.2 i b := by
      simp [Controller.updateButton, Controller.updateEdge, Controller.updateLong,
        Controller.lookup, ha, hd, hl]
    simp only [Controller.buttonUpdates, hstep, ih]

/-- A sequence of `Update` calls seen from button `i`. -/
theorem Updates_button (i : Nat) (calls : List (Int × (machine.Pin → Bool))) :
    ∀ (c : Controller α) (b : button), c.buttons[i]? = some b →
      (c.Updates calls).1.buttons[i]? = some (c.buttonUpdates i b calls).1 ∧
      eventsOf i (c.Updates calls).2 = (c.buttonUpdates i b calls).2 := by
  induction calls with
  | nil => intro c b h; simp [Controller.Updates, Controller.buttonUpdates, h, eventsOf]
  | cons call calls ih =>
    intro c b h
    obtain ⟨h1, h2⟩ := Update_button c call.1 call.2 i b h
    obtain ⟨ha, hd, hl, _⟩ := Update_config c call.1 call.2
    obtain ⟨h3, h4⟩ := ih (c.Update call.1 call.2).1 _ h1
    rw [buttonUpdates_congr c _ ha hd hl] at h3 h4
    simp only [Controller.Updates, Controller.buttonUpdates, eventsOf_append]
    exact ⟨h3, by rw [h2, h4]⟩

theorem Updates_config (c : Controller α) (calls : List (Int × (machine.Pin → Bool))) :
    (c.Updates calls).1.actions = c.actions ∧
    (c.Updates calls).1.debounceDur = c.debounceDur ∧
    (c.Updates calls).1.longPressDur = c.longPressDur ∧
    (c.Updates calls).1.pinMode = c.pinMode := by
  induction calls generalizing c with
  | nil => simp [Controller.Updates]
  | cons call calls ih =>
    have h := ih (c.Update call.1 call.2).1
    have h2 := Update_config c call.1 call.2
    simp only [Controller.Updates]
    exact ⟨h.1.trans h2.1, h.2.1.trans h2.2.1, h.2.2.1.trans h2.2.2.1, h.2.2.2.trans h2.2.2.2⟩

theorem buttonUpdates_append (c : Controller α) (i : Nat)
    (xs ys : List (Int × (machine.Pin → Bool))) :
    ∀ b : button, c.buttonUpdates i b (xs ++ ys) =
      ((c.buttonUpdates i (c.buttonUpdates i b xs).1 ys).1,
        (c.buttonUpdates i b xs).2 ++ (c.buttonUpdates i (c.buttonUpdates i b xs).1 ys).2) := by
  induction xs with
  | nil => intro b; simp [Controller.buttonUpdates]
  | cons x xs ih =>
    intro b
    rw [List.cons_append]
    simp only [Controller.buttonUpdates]
    rw [ih]
    simp only [List.append_assoc]

/-! ## The loop body, case by case -/

/-- A committed press that keeps being sampled pressed below the long-press
threshold: nothing changes and nothing is started. -/
theorem updateButton_hold_quiet (c : Controller α) (now : Int) (get : machine.Pin → Bool)
    (i : Nat) (b : button) (hp : b.isPressed = true) (hs : b.readState get = true)
    (hlt : time.Sub now b.pressedAt < c.longPressDur) :
    c.updateButton now get i b = (b, []) := by
  have hn : ¬ (c.longPressDur ≤ time.Sub now b.pressedAt) := by omega
  cases hl : b.longPressed
  · simp only [Controller.updateButton, Controller.updateEdge, Controller.updateLong, hp, hs, hn,
      hl, ne_eq, not_true_eq_false, false_and, and_false, if_false, if_true, List.append_nil]
    cases b; simp_all
  · simp [Controller.updateButton, Controller.updateEdge, Controller.updateLong, hp, hs, hn, hl]

/-- A committed press sampled pressed at or beyond the threshold for the first
time: `longPressed` is set and the LongPress callback is started. -/
theorem updateButton_hold_fire (c : Controller α) (now : Int) (get : machine.Pin → Bool)
    (i : Nat) (b : button) (hp : b.isPressed = true) (hs : b.readState get = true)
    (hge : c.longPressDur ≤ time.Sub now b.pressedAt) (hl : b.longPressed = false) :
    c.updateButton now get i b = ({ b with longPressed := true }, c.started LongPress i) := by
  simp [Controller.updateButton, Controller.updateEdge, Controller.updateLong, hp, hs, hge, hl,
    Controller.started]

/-- A committed press sampled pressed once `longPressed` is set: nothing
changes and nothing is started. -/
theorem updateButton_hold_done (c : Controller α) (now : Int) (get : machine.Pin → Bool)
    (i : Nat) (b : button) (hp : b.isPressed = true) (hs : b.readState get = true)
    (hl : b.longPressed = true) :
    c.updateButton now get i b = (b, []) := by
  by_cases hge : c.longPressDur ≤ time.Sub now b.pressedAt <;>
    simp [Controller.updateButton, Controller.updateEdge, Controller.updateLong, hp, hs, hge, hl]

/-- A released button sampled released: nothing changes. -/
theorem updateButton_idle (c : Controller α) (now : Int) (get : machine.Pin → Bool)
    (i : Nat) (b : button) (hp : b.isPressed = false) (hs : b.readState get = false) :
    c.updateButton now get i b = (b, []) := by
  cases hl : b.longPressed
  · simp only [Controller.updateButton, Controller.updateEdge, Controller.updateLong, hp, hs,
      hl, ne_eq, not_true_eq_false, false_and, if_false, if_true, List.append_nil,
      Bool.false_eq_true]
    cases b; simp_all
  · simp [Controller.updateButton, Controller.updateEdge, Controller.updateLong, hp, hs, hl]

/-- A press edge outside the debounce window, with a positive long-press
duration: the edge is committed and nothing is started. -/
theorem updateButton_press (c : Controller α) (now : Int) (get : machine.Pin → Bool)
    (i : Nat) (b : button) (hp : b.isPressed = false) (hs : b.readState get = true)
    (hdeb : c.debounceDur < time.Sub now b.recordedAt) (hpos : 0 < c.longPressDur) :
    c.updateButton now get i b =
      ({ b with isPressed := true, recordedAt := now, pressedAt := now }, []) := by
  have hn : ¬ (c.longPressDur ≤ 0) := by omega
  cases hl : b.longPressed <;>
    simp [Controller.updateButton, Controller.updateEdge, Controller.updateLong, hp, hs, hdeb,
      hl, Sub_self, hn]

/-- A release edge outside the debounce window: the edge is committed, and the
SingleClick callback is started exactly when the press was shorter than the
long-press duration. -/
theorem updateButton_release (c : Controller α) (now : Int) (get : machine.Pin → Bool)
    (i : Nat) (b : button) (hp : b.isPressed = true) (hs : b.readState get = false)
    (hdeb : c.debounceDur < time.Sub now b.recordedAt) :
    c.updateButton now get i b =
      ({ b with isPressed := false, recordedAt := now },
        if time.Sub now b.pressedAt < c.longPressDur then c.started SingleClick i else []) := by
  cases hl : b.longPressed <;> cases hk : c.lookup SingleClick i <;>
    simp [Controller.updateButton, Controller.updateEdge, Controller.updateLong, hp, hs, hdeb,
      hl, hk, Controller.started]

/-- Inside the debounce window the edge detector does nothing. -/
theorem updateEdge_suppressed (c : Controller α) (now : Int) (get : machine.Pin → Bool)
    (i : Nat) (b : button) (hdeb : time.Sub now b.recordedAt ≤ c.debounceDur) :
    c.updateEdge now get i b = (b, []) := by
  have hn : ¬ (c.debounceDur < time.Sub now b.recordedAt) := by omega
  simp [Controller.updateEdge, hn]

/-! ## Runs of the loop body -/

theorem buttonUpdates_hold_quiet (c : Controller α) (i : Nat)
    (mid : List (Int × (machine.Pin → Bool))) (b : button) (hp : b.isPressed = true)
    (h : ∀ s ∈ mid, b.readState s.2 = true ∧ time.Sub s.1 b.pressedAt < c.longPressDur) :
    c.buttonUpdates i b mid = (b, []) := by
  induction mid with
  | nil => rfl
  | cons s mid ih =>
    have hs := h s (List.mem_cons_self _ _)
    simp only [Controller.buttonUpdates, updateButton_hold_quiet c s.1 s.2 i b hp hs.1 hs.2]
    rw [ih (fun x hx => h x (List.mem_cons_of_mem _ hx))]
    rfl

theorem buttonUpdates_hold_done (c : Controller α) (i : Nat)
    (mid : List (Int × (machine.Pin → Bool))) (b : button) (hp : b.isPressed = true)
    (hl : b.longPressed = true) (h : ∀ s ∈ mid, b.readState s.2 = true) :
    c.buttonUpdates i b mid = (b, []) := by
  induction mid with
  | nil => rfl
  | cons s mid ih =>
    have hs := h s (List.mem_cons_self _ _)
    simp only [Controller.buttonUpdates, updateButton_hold_done c s.1 s.2 i b hp hs hl]
    rw [ih (fun x hx => h x (List.mem_cons_of_mem _ hx))]
    rfl

/-- Bounds read off a non-decreasing list of clock readings `t0, mid, t1`. -/
theorem monotone_bounds (t0 t1 : Int) (mid : List (Int × (machine.Pin → Bool)))
    (h : List.Pairwise (fun x y : Int => x ≤ y) (t0 :: (mid.map Prod.fst ++ [t1]))) :
    t0 ≤ t1 ∧ ∀ s ∈ mid, t0 ≤ s.1 ∧ s.1 ≤ t1 := by
  rw [List.pairwise_cons, List.pairwise_append] at h
  obtain ⟨h0, _, _, h2⟩ := h
  refine ⟨h0 t1 (by simp), fun s hs => ⟨h0 s.1 ?_, h2 s.1 ?_ t1 (by simp)⟩⟩
  · exact List.mem_append_left _ (List.mem_map_of_mem _ hs)
  · exact List.mem_map_of_mem _ hs

/-- Claim C1. A button with a SingleClick callback whose press edge is committed
at `t0`, that is sampled pressed on every later call until a release is sampled
at `t1` with `debounceDur < t1 - t0 < longPressDur`, under non-decreasing clock
readings: no callback of the button is started before the call at `t1`, the
call at `t1` starts the SingleClick callback and nothing else, and so the
whole gesture starts the SingleClick callback once and no LongPress callback. -/
theorem single_click_gesture (c : Controller α) (i : Nat) (b : button) (a : α)
    (t0 t1 : Int) (g0 g1 : machine.Pin → Bool) (mid : List (Int × (machine.Pin → Bool)))
    (hb : c.buttons[i]? = some b)
    (ha : c.lookup SingleClick i = some a)
    (hlong : time.validDuration c.longPressDur)
    (hrel : b.isPressed = false)
    (hs0 : b.readState g0 = true)
    (hedge : time.Sub t0 b.recordedAt > c.debounceDur)
    (hmid : ∀ s ∈ mid, b.readState s.2 = true)
    (hs1 : b.readState g1 = false)
    (hmono : List.Pairwise (fun x y : Int => x ≤ y) (t0 :: (mid.map Prod.fst ++ [t1])))
    (hd1 : c.debounceDur < t1 - t0)
    (hd2 : t1 - t0 < c.longPressDur) :
    eventsOf i (c.Updates ((t0, g0) :: mid)).2 = [] ∧
    eventsOf i ((c.Updates ((t0, g0) :: mid)).1.Update t1 g1).2
      = [{ kind := SingleClick, id := i, action := a }] ∧
    eventsOf i (c.Updates ((t0, g0) :: mid ++ [(t1, g1)])).2
      = [{ kind := SingleClick, id := i, action := a }] := by
  obtain ⟨h01, hbnd⟩ := monotone_bounds t0 t1 mid hmono
  obtain ⟨hmin, hmax⟩ := hlong
  simp only [time.minDuration, time.maxDuration] at hmin hmax
  have hpos : 0 < c.longPressDur := by omega
  -- the press edge
  have e0 := updateButton_press c t0 g0 i b hrel hs0 hedge hpos
  generalize hb1 : ({ b with isPressed := true, recordedAt := t0, pressedAt := t0 } : button) = b1
    at e0
  have hp1 : b1.isPressed = true := by subst hb1; rfl
  have ht1 : b1.pressedAt = t0 := by subst hb1; rfl
  have hr1 : b1.recordedAt = t0 := by subst hb1; rfl
  have hrs : ∀ g, b1.readState g = b.readState g := by intro g; subst hb1; rfl
  -- the hold
  have e1 : c.buttonUpdates i b1 mid = (b1, []) := by
    apply buttonUpdates_hold_quiet c i mid b1 hp1
    intro s hs
    refine ⟨by rw [hrs]; exact hmid s hs, ?_⟩
    rw [ht1]
    apply Sub_lt_of_lt (by simp only [time.minDuration]; omega)
    have := hbnd s hs
    omega
  -- the release edge
  have e2 : c.updateButton t1 g1 i b1 =
      ({ b1 with isPressed := false, recordedAt := t1 },
        [{ kind := SingleClick, id := i, action := a }]) := by
    have hdeb : c.debounceDur < time.Sub t1 b1.recordedAt := by
      rw [hr1]; exact Sub_gt_of_gt (by simp only [time.maxDuration]; omega) hd1
    have hlt : time.Sub t1 b1.pressedAt < c.longPressDur := by
      rw [ht1]; exact Sub_lt_of_lt (by simp only [time.minDuration]; omega) hd2
    rw [updateButton_release c t1 g1 i b1 hp1 (by rw [hrs]; exact hs1) hdeb, if_pos hlt]
    simp [Controller.started, ha]
  have erun : c.buttonUpdates i b ((t0, g0) :: mid) = (b1, []) := by
    simp only [Controller.buttonUpdates, e0, e1, List.append_nil]
  obtain ⟨hB, hE⟩ := Updates_button i ((t0, g0) :: mid) c b hb
  rw [erun] at hB hE
  obtain ⟨_, hE2⟩ := Update_button (c.Updates ((t0, g0) :: mid)).1 t1 g1 i b1 hB
  have hcfg : ((c.Updates ((t0, g0) :: mid)).1.updateButton t1 g1 i b1) =
      c.updateButton t1 g1 i b1 := by
    have := buttonUpdates_congr c (c.Updates ((t0, g0) :: mid)).1
      (Updates_config c _).1 (Updates_config c _).2.1 (Updates_config c _).2.2.1 i
      [(t1, g1)] b1
    simpa [Controller.buttonUpdates] using this
  refine ⟨hE, ?_, ?_⟩
  · rw [hE2, hcfg, e2]
  · obtain ⟨_, hE3⟩ := Updates_button i ((t0, g0) :: mid ++ [(t1, g1)]) c b hb
    rw [hE3, buttonUpdates_append, erun]
    simp [Controller.buttonUpdates, e2]

/-- The scenario of C1: pressed at 0, polled every 10ms, released at 200ms. -/
theorem single_click_gesture_witness :
    eventsOf 0 (clickController.Updates ((0, allHigh) :: polls 10 10 19 allHigh)).2 = [] ∧
    eventsOf 0 ((clickController.Updates ((0, allHigh) :: polls 10 10 19 allHigh)).1.Update
        (200 * time.Millisecond) allLow).2
      = [{ kind := SingleClick, id := 0, action := "single click" }] ∧
    eventsOf 0 (clickController.Updates
        ((0, allHigh) :: polls 10 10 19 allHigh ++ [(200 * time.Millisecond, allLow)])).2
      = [{ kind := SingleClick, id := 0, action := "single click" }] :=
  single_click_gesture clickController 0 freshButton "single click" 0 (200 * time.Millisecond)
    allHigh allLow (polls 10 10 19 allHigh) (by rfl) (by rfl) (by decide) (by rfl) (by rfl)
    (by decide) (by decide) (by rfl) (by decide) (by decide) (by decide)

/-! ## Long presses -/

theorem Updates_then_Updates (c : Controller α) (i : Nat) (b : button)
    (xs ys : List (Int × (machine.Pin → Bool))) (hb : c.buttons[i]? = some b) :
    ((c.Updates xs).1.Updates ys).1.buttons[i]? =
      some (c.buttonUpdates i (c.buttonUpdates i b xs).1 ys).1 ∧
    eventsOf i ((c.Updates xs).1.Updates ys).2 =
      (c.buttonUpdates i (c.buttonUpdates i b xs).1 ys).2 := by
  obtain ⟨hB, _⟩ := Updates_button i xs c b hb
  obtain ⟨h1, h2⟩ := Updates_button i ys (c.Updates xs).1 _ hB
  have hc := Updates_config c xs
  rw [buttonUpdates_congr c (c.Updates xs).1 hc.1 hc.2.1 hc.2.2.1] at h1 h2
  exact ⟨h1, h2⟩

theorem Updates_then_Update (c : Controller α) (i : Nat) (b : button)
    (xs : List (Int × (machine.Pin → Bool))) (now : Int) (get : machine.Pin → Bool)
    (hb : c.buttons[i]? = some b) :
    ((c.Updates xs).1.Update now get).1.buttons[i]? =
      some (c.updateButton now get i (c.buttonUpdates i b xs).1).1 ∧
    eventsOf i ((c.Updates xs).1.Update now get).2 =
      (c.updateButton now get i (c.buttonUpdates i b xs).1).2 := by
  have h := Updates_then_Updates c i b xs [(now, get)] hb
  simpa [Controller.Updates, Controller.buttonUpdates] using h

/-- A press edge outside the debounce window when the long-press duration is
not positive: the edge is committed and the long press fires in the same call. -/
theorem updateButton_press_fire (c : Controller α) (now : Int) (get : machine.Pin → Bool)
    (i : Nat) (b : button) (hp : b.isPressed = false) (hs : b.readState get = true)
    (hdeb : c.debounceDur < time.Sub now b.recordedAt) (hpos : c.longPressDur ≤ 0)
    (hl : b.longPressed = false) :
    c.updateButton now get i b =
      ({ b with isPressed := true, recordedAt := now, pressedAt := now, longPressed := true },
        c.started LongPress i) := by
  simp [Controller.updateButton, Controller.updateEdge, Controller.updateLong, hp, hs, hdeb,
    hl, Sub_self, hpos, Controller.started]

/-- Once `longPressed` is set, a call at or beyond the long-press threshold of
the current press starts nothing, whatever is sampled. -/
theorem updateButton_after_long (c : Controller α) (now : Int) (get : machine.Pin → Bool)
    (i : Nat) (b : button) (hp : b.isPressed = true) (hl : b.longPressed = true)
    (hge : c.longPressDur ≤ time.Sub now b.pressedAt) :
    (c.updateButton now get i b).2 = [] := by
  have hn : ¬ (time.Sub now b.pressedAt < c.longPressDur) := by omega
  cases hs : b.readState get
  · by_cases hdeb : c.debounceDur < time.Sub now b.recordedAt
    · rw [updateButton_release c now get i b hp hs hdeb, if_neg hn]
    · simp [Controller.updateButton, updateEdge_suppressed c now get i b (by omega),
        Controller.updateLong, hl]
  · rw [updateButton_hold_done c now get i b hp hs hl]

/-- The claim of C2 fails when no `Update` samples the held button at or after
`t0 + longPressDur`: the LongPress button of `holdController` is fresh, its press
edge is committed at `0` (`isPressed` is true and `longPressed` false after that
call), the release is sampled at 1200ms >= `longPressDur`, and yet the two
calls start no callback at all and `longPressed` is never set. -/
theorem long_press_unsampled_counterexample :
    holdController.buttons[0]? = some freshButton ∧
    holdController.lookup LongPress 0 = some "long press" ∧
    (holdController.Update 0 allHigh).1.buttons[0]?
      = some { freshButton with isPressed := true, recordedAt := 0, pressedAt := 0 } ∧
    freshButton.readState allLow = false ∧
    holdController.longPressDur ≤ 1200 * time.Millisecond - 0 ∧
    (holdController.Updates [(0, allHigh), (1200 * time.Millisecond, allLow)]).2 = [] ∧
    (holdController.Updates [(0, allHigh), (1200 * time.Millisecond, allLow)]).1.buttons[0]?
      = some { freshButton with recordedAt := 1200 * time.Millisecond } := by
  decide

/-- Claim C2, amended. A button that is released with `longPressed` clear, whose
press edge is committed at `t0`, that is sampled pressed on every later call
until a release is sampled at `t1`, under non-decreasing clock readings, and
for which some call that samples it pressed (`hit`, the first one such) has a
clock reading of at least `t0 + longPressDur`: no callback of the button is
started before `hit`, the call `hit` starts the LongPress callback of the
button (if it has one) and nothing else, and no callback is started after it,
the call at `t1` included, whatever that call samples (a release in the
claim). So the gesture starts the LongPress callback once and the SingleClick
callback never. -/
theorem long_press_gesture (c : Controller α) (i : Nat) (b : button)
    (t0 t1 : Int) (g0 g1 : machine.Pin → Bool)
    (mid pre post : List (Int × (machine.Pin → Bool))) (hit : Int × (machine.Pin → Bool))
    (hb : c.buttons[i]? = some b)
    (hlong : time.validDuration c.longPressDur)
    (hrel : b.isPressed = false)
    (hfresh : b.longPressed = false)
    (hs0 : b.readState g0 = true)
    (hedge : time.Sub t0 b.recordedAt > c.debounceDur)
    (hmid : ∀ s ∈ mid, b.readState s.2 = true)
    (hmono : List.Pairwise (fun x y : Int => x ≤ y) (t0 :: (mid.map Prod.fst ++ [t1])))
    (hsplit : (t0, g0) :: mid = pre ++ hit :: post)
    (hpre : ∀ s ∈ pre, s.1 - t0 < c.longPressDur)
    (hhit : c.longPressDur ≤ hit.1 - t0) :
    eventsOf i (c.Updates pre).2 = [] ∧
    eventsOf i ((c.Updates pre).1.Update hit.1 hit.2).2 = c.started LongPress i ∧
    eventsOf i ((c.Updates (pre ++ [hit])).1.Updates (post ++ [(t1, g1)])).2 = [] ∧
    eventsOf i (c.Updates ((t0, g0) :: mid ++ [(t1, g1)])).2 = c.started LongPress i := by
  obtain ⟨h01, hbnd⟩ := monotone_bounds t0 t1 mid hmono
  obtain ⟨hmin, hmax⟩ := hlong
  simp only [time.minDuration, time.maxDuration] at hmin hmax
  -- the state once the long press has fired
  generalize hb2 : ({ b with
    isPressed := true, recordedAt := t0, pressedAt := t0, longPressed := true } : button) = b2
  have hp2 : b2.isPressed = true := by subst hb2; rfl
  have hl2 : b2.longPressed = true := by subst hb2; rfl
  have ht2 : b2.pressedAt = t0 := by subst hb2; rfl
  have hrs2 : ∀ g, b2.readState g = b.readState g := by intro g; subst hb2; rfl
  -- up to and including the call that fires
  have key : c.buttonUpdates i b pre = ((c.buttonUpdates i b pre).1, []) ∧
      c.updateButton hit.1 hit.2 i (c.buttonUpdates i b pre).1 = (b2, c.started LongPress i) ∧
      hit.1 ≤ t1 ∧ ∀ s ∈ post, b.readState s.2 = true := by
    cases pre with
    | nil =>
      simp only [List.nil_append, List.cons.injEq] at hsplit
      obtain ⟨hh, hm⟩ := hsplit
      subst hh; subst hm
      refine ⟨rfl, ?_, h01, hmid⟩
      simp only [Controller.buttonUpdates]
      rw [updateButton_press_fire c t0 g0 i b hrel hs0 hedge (by simpa using hhit) hfresh, hb2]
    | cons p pre1 =>
      simp only [List.cons_append, List.cons.injEq] at hsplit
      obtain ⟨hp, hm⟩ := hsplit
      subst hp; subst hm
      have hpos : 0 < c.longPressDur := by
        have := hpre (t0, g0) (List.mem_cons_self _ _)
        simpa using this
      have e0 := updateButton_press c t0 g0 i b hrel hs0 hedge hpos
      generalize hb1 : ({ b with isPressed := true, recordedAt := t0, pressedAt := t0 } : button)
        = b1 at e0
      have hp1 : b1.isPressed = true := by subst hb1; rfl
      have hl1 : b1.longPressed = false := by subst hb1; exact hfresh
      have ht1 : b1.pressedAt = t0 := by subst hb1; rfl
      have hrs1 : ∀ g, b1.readState g = b.readState g := by intro g; subst hb1; rfl
      have hb12 : ({ b1 with longPressed := true } : button) = b2 := by
        subst hb1; subst hb2; rfl
      have e1 : c.buttonUpdates i b1 pre1 = (b1, []) := by
        apply buttonUpdates_hold_quiet c i pre1 b1 hp1
        intro s hs
        refine ⟨by rw [hrs1]; exact hmid s (List.mem_append_left _ hs), ?_⟩
        rw [ht1]
        apply Sub_lt_of_lt (by simp only [time.minDuration]; omega)
        exact hpre s (List.mem_cons_of_mem _ hs)
      have hrun : c.buttonUpdates i b ((t0, g0) :: pre1) = (b1, []) := by
        simp only [Controller.buttonUpdates, e0, e1, List.append_nil]
      have hhm : hit ∈ pre1 ++ hit :: post := by simp
      refine ⟨by rw [hrun], ?_, (hbnd hit hhm).2, fun s hs => hmid s (by simp [hs])⟩
      rw [hrun]
      have hge : c.longPressDur ≤ time.Sub hit.1 b1.pressedAt := by
        rw [ht1]; exact Sub_ge_of_ge (by simp only [time.maxDuration]; omega) hhit
      rw [updateButton_hold_fire c hit.1 hit.2 i b1 hp1 (by rw [hrs1]; exact hmid hit hhm) hge hl1,
        hb12]
  obtain ⟨k1, k2, k3, k4⟩ := key
  -- after the call that fires
  have e3 : c.buttonUpdates i b2 post = (b2, []) :=
    buttonUpdates_hold_done c i post b2 hp2 hl2 (fun s hs => by rw [hrs2]; exact k4 s hs)
  have e4 : (c.updateButton t1 g1 i b2).2 = [] := by
    apply updateButton_after_long c t1 g1 i b2 hp2 hl2
    rw [ht2]
    exact Sub_ge_of_ge (by simp only [time.maxDuration]; omega) (by omega)
  have hpreHit : c.buttonUpdates i b (pre ++ [hit]) = (b2, c.started LongPress i) := by
    rw [buttonUpdates_append, k1]
    simp only [Controller.buttonUpdates, k2, List.nil_append, List.append_nil]
  have htail : (c.buttonUpdates i b2 (post ++ [(t1, g1)])).2 = [] := by
    rw [buttonUpdates_append, e3]
    simp only [Controller.buttonUpdates, e4, List.append_nil]
  refine ⟨?_, ?_, ?_, ?_⟩
  · rw [(Updates_button i pre c b hb).2, k1]
  · rw [(Updates_then_Update c i b pre hit.1 hit.2 hb).2, k2]
  · rw [(Updates_then_Updates c i b (pre ++ [hit]) (post ++ [(t1, g1)]) hb).2, hpreHit, htail]
  · have hall : (t0, g0) :: mid ++ [(t1, g1)] = (pre ++ [hit]) ++ (post ++ [(t1, g1)]) := by
      rw [hsplit]; simp
    rw [(Updates_button i _ c b hb).2, hall, buttonUpdates_append, hpreHit, htail]
    simp

/-- The scenario of C2: pressed at 0, polled every 10ms, released at 1200ms;
the LongPress callback is started by the call at 1000ms and by no other. -/
theorem long_press_gesture_witness :
    eventsOf 0 (holdController.Updates (polls 0 10 100 allHigh)).2 = [] ∧
    eventsOf 0 ((holdController.Updates (polls 0 10 100 allHigh)).1.Update
        (1000 * time.Millisecond) allHigh).2
      = [{ kind := LongPress, id := 0, action := "long press" }] ∧
    eventsOf 0 ((holdController.Updates
        (polls 0 10 100 allHigh ++ [(1000 * time.Millisecond, allHigh)])).1.Updates
        (polls 1010 10 19 allHigh ++ [(1200 * time.Millisecond, allLow)])).2 = [] ∧
    eventsOf 0 (holdController.Updates
        ((0, allHigh) :: polls 10 10 119 allHigh ++ [(1200 * time.Millisecond, allLow)])).2
      = [{ kind := LongPress, id := 0, action := "long press" }] :=
  long_press_gesture holdController 0 freshButton 0 (1200 * time.Millisecond) allHigh allLow
    (polls 10 10 119 allHigh) (polls 0 10 100 allHigh) (polls 1010 10 19 allHigh)
    (1000 * time.Millisecond, allHigh)
    (by rfl) (by decide) (by rfl) (by rfl) (by rfl) (by decide) (by decide) (by decide)
    (by rfl) (by decide) (by decide)

/-! ## The `longPressed` flag is never cleared

The branch `else if !btn.longPressed { btn.longPressed = false }` assigns
`false` only where the flag is already `false`. -/

/-- Claim C3, evaluated on the code. `holdController`: pressed at 0 and polled at 1000ms
(the LongPress callback is started), released at 1200ms (the release is
committed, `longPressed` stays set), pressed again at 1300ms and polled at
2300ms and 2400ms, so held for `longPressDur` and more: the second press
starts no callback. -/
theorem second_long_press_starts_nothing :
    (holdController.Updates
      [(0, allHigh), (1000 * time.Millisecond, allHigh), (1200 * time.Millisecond, allLow)]).2
      = [{ kind := LongPress, id := 0, action := "long press" }] ∧
    (holdController.Updates
      [(0, allHigh), (1000 * time.Millisecond, allHigh), (1200 * time.Millisecond, allLow)]).1.buttons
      = [{ pin := 15, pullup := true, isPressed := false, longPressed := true,
           recordedAt := 1200 * time.Millisecond, pressedAt := 0 }] ∧
    ((holdController.Updates
      [(0, allHigh), (1000 * time.Millisecond, allHigh),
        (1200 * time.Millisecond, allLow)]).1.Updates
      [(1300 * time.Millisecond, allHigh), (2300 * time.Millisecond, allHigh),
        (2400 * time.Millisecond, allHigh)]).2 = [] ∧
    ((holdController.Updates
      [(0, allHigh), (1000 * time.Millisecond, allHigh),
        (1200 * time.Millisecond, allLow)]).1.Updates
      [(1300 * time.Millisecond, allHigh), (2300 * time.Millisecond, allHigh),
        (2400 * time.Millisecond, allHigh)]).1.buttons
      = [{ pin := 15, pullup := true, isPressed := true, longPressed := true,
           recordedAt := 1300 * time.Millisecond, pressedAt := 1300 * time.Millisecond }] := by
  decide

set_option maxRecDepth 8000 in
/-- Claim C8, evaluated on the code. `holdController` polled every 100ms: pressed from 0 to
1000ms, then released. After the call at 1100ms, which commits the release,
and after each of the following calls, the button has `isPressed = false` and
`longPressed = true`. -/
theorem released_button_keeps_longPressed :
    (holdController.Updates (polls 0 100 11 allHigh ++ polls 1100 100 1 allLow)).1.buttons
      = [{ pin := 15, pullup := true, isPressed := false, longPressed := true,
           recordedAt := 1100 * time.Millisecond, pressedAt := 0 }] ∧
    (holdController.Updates (polls 0 100 11 allHigh ++ polls 1100 100 2 allLow)).1.buttons
      = [{ pin := 15, pullup := true, isPressed := false, longPressed := true,
           recordedAt := 1100 * time.Millisecond, pressedAt := 0 }] ∧
    (holdController.Updates (polls 0 100 11 allHigh ++ polls 1100 100 10 allLow)).1.buttons
      = [{ pin := 15, pullup := true, isPressed := false, longPressed := true,
           recordedAt := 1100 * time.Millisecond, pressedAt := 0 }] := by
  decide

/-! ## Debounce -/

/-- A released button inside the debounce window: nothing changes, whatever is
sampled. -/
theorem updateButton_released_suppressed (c : Controller α) (now : Int)
    (get : machine.Pin → Bool) (i : Nat) (b : button) (hp : b.isPressed = false)
    (hdeb : time.Sub now b.recordedAt ≤ c.debounceDur) :
    c.updateButton now get i b = (b, []) := by
  cases hl : b.longPressed
  · simp only [Controller.updateButton, updateEdge_suppressed c now get i b hdeb,
      Controller.updateLong, hp, hl, Bool.false_eq_true, false_and, if_false, if_true,
      List.append_nil]
    cases b; simp_all
  · simp [Controller.updateButton, updateEdge_suppressed c now get i b hdeb,
      Controller.updateLong, hp, hl]

/-- The claim of C4 fails on a button released for longer than `debounceDur`:
the SingleClick button of `clickController` has been released for 100ms > 50ms
at the clock reading 0; it is sampled pressed at 0 and released from 10ms on
(polled every 10ms up to 100ms). The call at 0 commits the press (`isPressed`
becomes true) and the call at 60ms commits the release and starts the
SingleClick callback. -/
theorem short_press_counterexample :
    clickController.buttons[0]? = some freshButton ∧
    freshButton.isPressed = false ∧
    clickController.debounceDur < 0 - freshButton.recordedAt ∧
    10 * time.Millisecond - 0 < clickController.debounceDur ∧
    (clickController.Update 0 allHigh).1.buttons
      = [{ pin := 15, pullup := true, isPressed := true, longPressed := false,
           recordedAt := 0, pressedAt := 0 }] ∧
    (clickController.Updates ((0, allHigh) :: polls 10 10 5 allLow)).2 = [] ∧
    ((clickController.Updates ((0, allHigh) :: polls 10 10 5 allLow)).1.Update
        (60 * time.Millisecond) allLow).2
      = [{ kind := SingleClick, id := 0, action := "single click" }] ∧
    (clickController.Updates ((0, allHigh) :: polls 10 10 10 allLow)).2
      = [{ kind := SingleClick, id := 0, action := "single click" }] := by
  decide

/-- Claim C4, amended. A press that falls inside the debounce window of the last
committed transition never registers: for a released button, if every call
that samples it pressed has a clock reading at most `debounceDur` after
`recordedAt` (calls that sample it released may come at any time), then after
any such sequence of calls the button is exactly as before, so `isPressed`
is false throughout, and no callback of the button has been started. -/
theorem short_press_filtered (c : Controller α) (i : Nat) (b : button)
    (calls : List (Int × (machine.Pin → Bool)))
    (hb : c.buttons[i]? = some b)
    (hdeb : time.validDuration c.debounceDur)
    (hrel : b.isPressed = false)
    (hwin : ∀ s ∈ calls, b.readState s.2 = true → s.1 - b.recordedAt ≤ c.debounceDur) :
    (c.Updates calls).1.buttons[i]? = some b ∧ eventsOf i (c.Updates calls).2 = [] := by
  have hrun : c.buttonUpdates i b calls = (b, []) := by
    induction calls with
    | nil => rfl
    | cons s calls ih =>
      have hstep : c.updateButton s.1 s.2 i b = (b, []) := by
        cases hs : b.readState s.2
        · exact updateButton_idle c s.1 s.2 i b hrel hs
        · exact updateButton_released_suppressed c s.1 s.2 i b hrel
            (Sub_le_of_le hdeb.1 (hwin s (List.mem_cons_self _ _) hs))
      simp only [Controller.buttonUpdates, hstep]
      rw [ih (fun x hx => hwin x (List.mem_cons_of_mem _ hx))]
      rfl
  obtain ⟨h1, h2⟩ := Updates_button i calls c b hb
  rw [hrun] at h1 h2
  exact ⟨h1, h2⟩

/-- The scenario of C4 inside a debounce window: the button of `lateController`
was registered at 0 (`recordedAt = 0`), is sampled pressed at 10ms and released
from 20ms on, polled every 10ms up to 300ms. -/
theorem short_press_filtered_witness :
    (lateController.Updates ((10 * time.Millisecond, allHigh) :: polls 20 10 29 allLow)).1.buttons[0]?
      = some { pin := 15, pullup := true } ∧
    eventsOf 0
      (lateController.Updates ((10 * time.Millisecond, allHigh) :: polls 20 10 29 allLow)).2 = [] :=
  short_press_filtered lateController 0 { pin := 15, pullup := true }
    ((10 * time.Millisecond, allHigh) :: polls 20 10 29 allLow)
    (by rfl) (by decide) (by rfl) (by decide)

/-- One loop iteration either flips `isPressed`, and then the call is more than
`debounceDur` after `recordedAt` and `recordedAt` becomes the clock reading, or
leaves `isPressed`, `recordedAt` and `pressedAt` alone. -/
theorem updateButton_commit (c : Controller α) (now : Int) (get : machine.Pin → Bool)
    (i : Nat) (b : button) :
    ((c.updateButton now get i b).1.isPressed ≠ b.isPressed →
      c.debounceDur < time.Sub now b.recordedAt ∧ (c.updateButton now get i b).1.recordedAt = now) ∧
    ((c.updateButton now get i b).1.isPressed = b.isPressed →
      (c.updateButton now get i b).1.recordedAt = b.recordedAt ∧
      (c.updateButton now get i b).1.pressedAt = b.pressedAt) := by
  obtain ⟨_, _, h3, h4, h5⟩ := updateLong_frame c now i (c.updateEdge now get i b).1
  simp only [Controller.updateButton, h3, h4, h5]
  by_cases h1 : b.readState get ≠ b.isPressed ∧ time.Sub now b.recordedAt > c.debounceDur
  · have hlt : c.debounceDur < time.Sub now b.recordedAt := h1.2
    cases h2 : b.readState get
    · have hne : ¬ (false = b.isPressed) := by rw [← h2]; exact h1.1
      simp [Controller.updateEdge, h2, hne, hlt]
    · have hne : ¬ (true = b.isPressed) := by rw [← h2]; exact h1.1
      simp [Controller.updateEdge, h2, hne, hlt]
  · simp [Controller.updateEdge, h1]

theorem buttonUpdates_suppressed (c : Controller α) (i : Nat)
    (hdeb : time.minDuration ≤ c.debounceDur)
    (calls : List (Int × (machine.Pin → Bool))) :
    ∀ b : button, (∀ s ∈ calls, s.1 - b.recordedAt ≤ c.debounceDur) →
      (c.buttonUpdates i b calls).1.isPressed = b.isPressed ∧
      (c.buttonUpdates i b calls).1.recordedAt = b.recordedAt ∧
      (c.buttonUpdates i b calls).1.pressedAt = b.pressedAt := by
  induction calls with
  | nil => intro b _; exact ⟨rfl, rfl, rfl⟩
  | cons s calls ih =>
    intro b h
    have hs := Sub_le_of_le hdeb (h s (List.mem_cons_self _ _))
    obtain ⟨k1, k2⟩ := updateButton_commit c s.1 s.2 i b
    have hsame : (c.updateButton s.1 s.2 i b).1.isPressed = b.isPressed := by
      by_contra hne
      have := (k1 hne).1
      omega
    obtain ⟨hr, hp⟩ := k2 hsame
    obtain ⟨j1, j2, j3⟩ := ih (c.updateButton s.1 s.2 i b).1 (by
      intro x hx
      rw [hr]
      exact h x (List.mem_cons_of_mem _ hx))
    simp only [Controller.buttonUpdates]
    exact ⟨j1.trans hsame, j2.trans hr, j3.trans hp⟩

theorem commitTimes_spaced (d : Int) (hd : time.minDuration ≤ d) (i : Nat)
    (calls : List (Int × (machine.Pin → Bool))) :
    ∀ (c : Controller α) (b : button), c.debounceDur = d → c.buttons[i]? = some b →
      ∀ p ∈ List.zip (b.recordedAt :: c.commitTimes i calls) (c.commitTimes i calls),
        d < p.2 - p.1 := by
  induction calls with
  | nil => intro c b _ _ p hp; simp [Controller.commitTimes] at hp
  | cons s calls ih =>
    intro c b hcd hb p hp
    obtain ⟨hB, _⟩ := Update_button c s.1 s.2 i b hb
    obtain ⟨k1, k2⟩ := updateButton_commit c s.1 s.2 i b
    have hcfg : (c.Update s.1 s.2).1.debounceDur = d := by
      rw [(Update_config c s.1 s.2).2.1, hcd]
    have hrec := ih (c.Update s.1 s.2).1 _ hcfg hB
    by_cases hch : (c.updateButton s.1 s.2 i b).1.isPressed = b.isPressed
    · rw [(k2 hch).1] at hrec
      have hT : c.commitTimes i (s :: calls) = (c.Update s.1 s.2).1.commitTimes i calls := by
        simp [Controller.commitTimes, hB, hb, hch]
      rw [hT] at hp
      exact hrec p hp
    · obtain ⟨hlt, hr⟩ := k1 hch
      rw [hr] at hrec
      have hT : c.commitTimes i (s :: calls) =
          s.1 :: (c.Update s.1 s.2).1.commitTimes i calls := by
        simp [Controller.commitTimes, hB, hb, hch]
      rw [hT] at hp
      simp only [List.zip_cons_cons, List.mem_cons] at hp
      rcases hp with hp | hp
      · subst hp
        have := lt_of_lt_Sub (hcd ▸ hd) hlt
        simp only
        omega
      · exact hrec p hp

/-- Claim C5. Debounce suppression for button `i` of a controller whose
`debounceDur` is a valid duration.
(1) Over a sequence of calls `quiet` whose clock readings are all at most
`debounceDur` after `recordedAt`, whatever pin levels are sampled, the
committed `isPressed`, `recordedAt` and `pressedAt` are unchanged after every
number `k` of those calls.
(2) One `Update` changes `isPressed` only if `now - recordedAt > debounceDur`,
and then sets `recordedAt = now`; otherwise it leaves `recordedAt` and
`pressedAt` alone, so `recordedAt` is the time of the last committed transition.
(3) Over any sequence of calls `run`, two consecutive committed transitions of
the button are more than `debounceDur` apart. -/
theorem debounce_suppression (c : Controller α) (i : Nat) (b : button)
    (quiet run : List (Int × (machine.Pin → Bool))) (k : Nat)
    (now : Int) (get : machine.Pin → Bool)
    (hb : c.buttons[i]? = some b)
    (hdeb : time.validDuration c.debounceDur)
    (hquiet : ∀ s ∈ quiet, s.1 - b.recordedAt ≤ c.debounceDur) :
    (∃ b1, (c.Updates (quiet.take k)).1.buttons[i]? = some b1 ∧
      b1.isPressed = b.isPressed ∧ b1.recordedAt = b.recordedAt ∧ b1.pressedAt = b.pressedAt) ∧
    (∃ b1, (c.Update now get).1.buttons[i]? = some b1 ∧
      (b1.isPressed ≠ b.isPressed → c.debounceDur < now - b.recordedAt ∧ b1.recordedAt = now) ∧
      (b1.isPressed = b.isPressed →
        b1.recordedAt = b.recordedAt ∧ b1.pressedAt = b.pressedAt)) ∧
    (∀ p ∈ List.zip (c.commitTimes i run) (c.commitTimes i run).tail,
      c.debounceDur < p.2 - p.1) := by
  refine ⟨?_, ?_, ?_⟩
  · refine ⟨_, (Updates_button i (quiet.take k) c b hb).1, ?_⟩
    exact buttonUpdates_suppressed c i hdeb.1 (quiet.take k) b
      (fun s hs => hquiet s (List.mem_of_mem_take hs))
  · refine ⟨_, (Update_button c now get i b hb).1, ?_, (updateButton_commit c now get i b).2⟩
    intro hne
    obtain ⟨h1, h2⟩ := (updateButton_commit c now get i b).1 hne
    exact ⟨lt_of_lt_Sub hdeb.1 h1, h2⟩
  · intro p hp
    have h := commitTimes_spaced c.debounceDur hdeb.1 i run c b rfl hb
    cases hT : c.commitTimes i run with
    | nil => rw [hT] at hp; simp at hp
    | cons t T =>
      rw [hT] at hp h
      apply h p
      simp only [List.tail_cons] at hp
      simp only [List.zip_cons_cons, List.mem_cons]
      exact Or.inr hp

/-- The button of `clickController` (`recordedAt = -100ms`, `debounceDur = 50ms`):
four calls between -90ms and -50ms with changing levels, the call at 0 that
samples a press, and a press at 0 released at 10ms, polled every 10ms. -/
theorem debounce_suppression_witness :
    (∃ b1, (clickController.Updates
        (List.take 4 [(-90 * time.Millisecond, allHigh), (-80 * time.Millisecond, allLow),
          (-70 * time.Millisecond, allHigh), (-50 * time.Millisecond, allHigh)])).1.buttons[0]?
        = some b1 ∧
      b1.isPressed = freshButton.isPressed ∧ b1.recordedAt = freshButton.recordedAt ∧
      b1.pressedAt = freshButton.pressedAt) ∧
    (∃ b1, (clickController.Update 0 allHigh).1.buttons[0]? = some b1 ∧
      (b1.isPressed ≠ freshButton.isPressed →
        clickController.debounceDur < 0 - freshButton.recordedAt ∧ b1.recordedAt = 0) ∧
      (b1.isPressed = freshButton.isPressed →
        b1.recordedAt = freshButton.recordedAt ∧ b1.pressedAt = freshButton.pressedAt)) ∧
    (∀ p ∈ List.zip (clickController.commitTimes 0 ((0, allHigh) :: polls 10 10 10 allLow))
        (clickController.commitTimes 0 ((0, allHigh) :: polls 10 10 10 allLow)).tail,
      clickController.debounceDur < p.2 - p.1) :=
  debounce_suppression clickController 0 freshButton
    [(-90 * time.Millisecond, allHigh), (-80 * time.Millisecond, allLow),
      (-70 * time.Millisecond, allHigh), (-50 * time.Millisecond, allHigh)]
    ((0, allHigh) :: polls 10 10 10 allLow) 4 0 allHigh (by rfl) (by decide) (by decide)

/-! ## Polarity of the sample -/

/-- Claim C6, evaluated on the code. The button that `Register` appends to a default
(pull-up) controller is sampled as pressed exactly when its pin reads high,
and the button appended to a pull-down controller exactly when its pin reads
low: `readState` is `pullup == pin.Get()`. -/
theorem readState_polarity (now : Int) (pin : machine.Pin) (kind : ActionType) (action : α)
    (get : machine.Pin → Bool) :
    (((NewController []).Register now pin kind action).buttons.map
      (fun b => (b.pullup, b.readState get)) = [(true, get pin)]) ∧
    (((NewController [WithPinMode machine.PinMode.PinInputPulldown]).Register
      now pin kind action).buttons.map
      (fun b => (b.pullup, b.readState get)) = [(false, !get pin)]) := by
  constructor
  · simp [NewController, Controller.Register, button.readState]
  · cases h : get pin <;>
      simp [NewController, Controller.Register, button.readState, WithPinMode, h]

/-! ## At most one callback per button and call -/

theorem started_length (c : Controller α) (kind : ActionType) (i : Nat) :
    (c.started kind i).length ≤ 1 := by
  unfold Controller.started
  split <;> simp

theorem updateLong_events (c : Controller α) (now : Int) (i : Nat) (b : button) :
    (c.updateLong now i b).2 = [] ∨ (c.updateLong now i b).2 = c.started LongPress i := by
  unfold Controller.updateLong Controller.started
  split_ifs <;> simp

theorem updateLong_released (c : Controller α) (now : Int) (i : Nat) (b : button)
    (hp : b.isPressed = false) : (c.updateLong now i b).2 = [] := by
  unfold Controller.updateLong
  split_ifs <;> simp_all

theorem updateButton_events_length (c : Controller α) (now : Int) (get : machine.Pin → Bool)
    (i : Nat) (b : button) : (c.updateButton now get i b).2.length ≤ 1 := by
  have hlong : ∀ b1 : button, (c.updateLong now i b1).2.length ≤ 1 := by
    intro b1
    rcases updateLong_events c now i b1 with h | h
    · simp [h]
    · rw [h]; exact started_length c LongPress i
  by_cases h1 : b.readState get ≠ b.isPressed ∧ time.Sub now b.recordedAt > c.debounceDur
  · have hlt : c.debounceDur < time.Sub now b.recordedAt := h1.2
    cases h2 : b.readState get
    · have hne : ¬ (false = b.isPressed) := by rw [← h2]; exact h1.1
      have he : (c.updateEdge now get i b).1.isPressed = false := by
        simp [Controller.updateEdge, h2, hne, hlt]
      have hl := updateLong_released c now i _ he
      simp only [Controller.updateButton, hl, List.append_nil]
      cases hk : c.lookup SingleClick i
      · simp [Controller.updateEdge, h2, hne, hlt, hk]
      · by_cases h3 : time.Sub now b.pressedAt < c.longPressDur <;>
          simp [Controller.updateEdge, h2, hne, hlt, hk, h3]
    · have hne : ¬ (true = b.isPressed) := by rw [← h2]; exact h1.1
      have he : (c.updateEdge now get i b).2 = [] := by
        simp [Controller.updateEdge, h2, hne, hlt]
      simp only [Controller.updateButton, he, List.nil_append]
      exact hlong _
  · have he : (c.updateEdge now get i b).2 = [] := by
      simp [Controller.updateEdge, h1]
    simp only [Controller.updateButton, he, List.nil_append]
    exact hlong _

theorem updateLoop_events_none (c : Controller α) (now : Int) (get : machine.Pin → Bool) :
    ∀ (bs : List button) (k j : Nat), bs[j]? = none →
      eventsOf (k + j) (c.updateLoop now get k bs).2 = [] := by
  intro bs
  induction bs with
  | nil => intro k j _; simp [Controller.updateLoop, eventsOf]
  | cons b0 rest ih =>
    intro k j h
    cases j with
    | zero => simp at h
    | succ j =>
      simp only [List.getElem?_cons_succ] at h
      simp only [Controller.updateLoop, eventsOf_append]
      have hk : k + (j + 1) = k + 1 + j := by omega
      rw [hk, ih (k + 1) j h, List.append_nil]
      apply eventsOf_other
      intro e he
      have := updateButton_id c now get k b0 e he
      omega

/-- Claim C7. For every controller, clock reading, pin levels and button id, one
`Update` starts at most one callback for that id; in particular it never starts
both a SingleClick and a LongPress callback for the same id, and starts
neither of them twice. -/
theorem one_callback_per_update (c : Controller α) (now : Int) (get : machine.Pin → Bool)
    (i : Nat) :
    (eventsOf i (c.Update now get).2).length ≤ 1 ∧
    ¬ (∃ e1 ∈ (c.Update now get).2, ∃ e2 ∈ (c.Update now get).2,
        e1.id = i ∧ e2.id = i ∧ e1.kind = SingleClick ∧ e2.kind = LongPress) := by
  have hlen : (eventsOf i (c.Update now get).2).length ≤ 1 := by
    cases hb : c.buttons[i]? with
    | none =>
      have := updateLoop_events_none c now get c.buttons 0 i hb
      simp only [Nat.zero_add] at this
      simp [Controller.Update, this]
    | some b =>
      rw [(Update_button c now get i b hb).2]
      exact updateButton_events_length c now get i b
  refine ⟨hlen, ?_⟩
  rintro ⟨e1, h1, e2, h2, hi1, hi2, hk1, hk2⟩
  have m1 : e1 ∈ eventsOf i (c.Update now get).2 := by
    simp [eventsOf, h1, hi1]
  have m2 : e2 ∈ eventsOf i (c.Update now get).2 := by
    simp [eventsOf, h2, hi2]
  have hne : e1 ≠ e2 := by
    intro h
    rw [h, hk2] at hk1
    exact absurd hk1 (by decide)
  match hl : eventsOf i (c.Update now get).2, hlen, m1, m2 with
  | [], _, m1, _ => simp at m1
  | [x], _, m1, m2 =>
    simp only [List.mem_singleton] at m1 m2
    exact hne (m1.trans m2.symm)
  | _ :: _ :: _, hlen, _, _ => simp at hlen

/-! ## Release inside the debounce window -/

theorem updateLong_quiet (c : Controller α) (now : Int) (i : Nat) (b : button)
    (hlt : time.Sub now b.pressedAt < c.longPressDur) :
    c.updateLong now i b = (b, []) := by
  have hn : ¬ (c.longPressDur ≤ time.Sub now b.pressedAt) := by omega
  cases hl : b.longPressed
  · simp only [Controller.updateLong, hn, hl, and_false, if_false, if_true]
    cases b; simp_all
  · simp [Controller.updateLong, hn, hl]

/-- The claim of C9 fails in a configuration with `longPressDur <= debounceDur`:
`slowDebounceController` (debounce 1s, long press 500ms) commits the press edge
of its button at 0; the call at 600ms, at most `debounceDur` after the edge,
samples the button as released, commits no transition (`isPressed` stays
true), and starts the LongPress callback. -/
theorem early_release_counterexample :
    (slowDebounceController.Update 0 allHigh).1.buttons
      = [{ pin := 15, pullup := true, isPressed := true, longPressed := false,
           recordedAt := 0, pressedAt := 0 }] ∧
    600 * time.Millisecond - 0 ≤ slowDebounceController.debounceDur ∧
    (({ pin := 15, pullup := true } : button).readState allLow) = false ∧
    ((slowDebounceController.Update 0 allHigh).1.Update (600 * time.Millisecond) allLow).1.buttons
      = [{ pin := 15, pullup := true, isPressed := true, longPressed := true,
           recordedAt := 0, pressedAt := 0 }] ∧
    ((slowDebounceController.Update 0 allHigh).1.Update (600 * time.Millisecond) allLow).2
      = [{ kind := LongPress, id := 0, action := "long press" }] := by
  decide

/-- Claim C9, amended. In a configuration with `debounceDur < longPressDur`, for
a button whose press edge was committed at `t0`, an `Update` at `t` with
`t - t0 <= debounceDur` that samples the button as released leaves the button
exactly as it was (no transition is committed, `isPressed` stays true) and
starts no callback of the button. -/
theorem early_release_suppressed (c : Controller α) (i : Nat) (b : button)
    (t0 t : Int) (get : machine.Pin → Bool)
    (hb : c.buttons[i]? = some b)
    (hdeb : time.validDuration c.debounceDur)
    (hcfg : c.debounceDur < c.longPressDur)
    (hp : b.isPressed = true)
    (hr : b.recordedAt = t0)
    (hpa : b.pressedAt = t0)
    (_hs : b.readState get = false)
    (ht : t - t0 ≤ c.debounceDur) :
    (c.Update t get).1.buttons[i]? = some b ∧ b.isPressed = true ∧
    eventsOf i (c.Update t get).2 = [] := by
  have hmin := hdeb.1
  simp only [time.minDuration] at hmin
  have h1 : time.Sub t b.recordedAt ≤ c.debounceDur := by
    rw [hr]; exact Sub_le_of_le hdeb.1 ht
  have h2 : time.Sub t b.pressedAt < c.longPressDur := by
    rw [hpa]; exact Sub_lt_of_lt (by simp only [time.minDuration]; omega) (by omega)
  have hstep : c.updateButton t get i b = (b, []) := by
    simp only [Controller.updateButton, updateEdge_suppressed c t get i b h1,
      updateLong_quiet c t i b h2, List.append_nil]
  obtain ⟨k1, k2⟩ := Update_button c t get i b hb
  rw [hstep] at k1 k2
  exact ⟨k1, hp, k2⟩

/-- The default configuration (debounce 50ms, long press 1s): the press edge of
the button of `clickController` is committed at 0 and the call at 10ms samples
it as released. -/
theorem early_release_suppressed_witness :
    ((clickController.Update 0 allHigh).1.Update (10 * time.Millisecond) allLow).1.buttons[0]?
      = some { pin := 15, pullup := true, isPressed := true, recordedAt := 0, pressedAt := 0 } ∧
    ({ pin := 15, pullup := true, isPressed := true, recordedAt := 0, pressedAt := 0 }
      : button).isPressed = true ∧
    eventsOf 0 ((clickController.Update 0 allHigh).1.Update (10 * time.Millisecond) allLow).2
      = [] :=
  early_release_suppressed (clickController.Update 0 allHigh).1 0
    { pin := 15, pullup := true, isPressed := true, recordedAt := 0, pressedAt := 0 }
    0 (10 * time.Millisecond) allLow
    (by rfl) (by decide) (by decide) (by rfl) (by rfl) (by rfl) (by rfl) (by decide)

/-! ## Construction -/

theorem foldl_otherThanDebounce (ys : List (Int ⊕ machine.PinMode)) :
    ∀ ctrl : Controller α,
      ((ys.map otherThanDebounce).foldl (fun ctrl opt => opt ctrl) ctrl).debounceDur
        = ctrl.debounceDur := by
  induction ys with
  | nil => intro ctrl; rfl
  | cons y ys ih =>
    intro ctrl
    simp only [List.map_cons, List.foldl_cons, ih]
    cases y <;> rfl

theorem foldl_otherThanLongPress (ys : List (Int ⊕ machine.PinMode)) :
    ∀ ctrl : Controller α,
      ((ys.map otherThanLongPress).foldl (fun ctrl opt => opt ctrl) ctrl).longPressDur
        = ctrl.longPressDur := by
  induction ys with
  | nil => intro ctrl; rfl
  | cons y ys ih =>
    intro ctrl
    simp only [List.map_cons, List.foldl_cons, ih]
    cases y <;> rfl

theorem foldl_otherThanPinMode (ys : List (Int ⊕ Int)) :
    ∀ ctrl : Controller α,
      ((ys.map otherThanPinMode).foldl (fun ctrl opt => opt ctrl) ctrl).pinMode
        = ctrl.pinMode := by
  induction ys with
  | nil => intro ctrl; rfl
  | cons y ys ih =>
    intro ctrl
    simp only [List.map_cons, List.foldl_cons, ih]
    cases y <;> rfl

/-- Claim C10. `NewController` without options has `debounceDur` 50ms,
`longPressDur` 1s, pull-up pin mode, no buttons and an empty registry; each of
the three options sets its own field and no other; options are applied in the
order given; and whatever options come first (`xs`), the value of a field is
the one of the last option for that field, the later options (`ys`) being
options for the other two fields. The configured example program gets 20ms,
2s and pull-down. -/
theorem NewController_options (ctrl : Controller α) (d : Int) (m : machine.PinMode)
    (xs : List (ControllerOption α)) (o : ControllerOption α)
    (ys : List (Int ⊕ machine.PinMode)) (zs : List (Int ⊕ Int)) :
    ((NewController [] : Controller α).debounceDur = 50000000 ∧
      (NewController [] : Controller α).longPressDur = 1000000000 ∧
      (NewController [] : Controller α).pinMode = machine.PinMode.PinInputPullup ∧
      (NewController [] : Controller α).buttons = [] ∧
      (NewController [] : Controller α).actions = (fun _ => none) ∧
      ∀ kind id, (NewController [] : Controller α).lookup kind id = none) ∧
    (WithDebounceDuration d ctrl =
        { buttons := ctrl.buttons, actions := ctrl.actions, debounceDur := d,
          longPressDur := ctrl.longPressDur, pinMode := ctrl.pinMode } ∧
      WithLongPressDuration d ctrl =
        { buttons := ctrl.buttons, actions := ctrl.actions, debounceDur := ctrl.debounceDur,
          longPressDur := d, pinMode := ctrl.pinMode } ∧
      WithPinMode m ctrl =
        { buttons := ctrl.buttons, actions := ctrl.actions, debounceDur := ctrl.debounceDur,
          longPressDur := ctrl.longPressDur, pinMode := m }) ∧
    NewController (xs ++ [o]) = o (NewController xs) ∧
    ((NewController (xs ++ WithDebounceDuration d :: ys.map otherThanDebounce)).debounceDur = d ∧
      (NewController (xs ++ WithLongPressDuration d :: ys.map otherThanLongPress)).longPressDur
        = d ∧
      (NewController (xs ++ WithPinMode m :: zs.map otherThanPinMode)).pinMode = m) ∧
    ((NewController [WithDebounceDuration (20 * time.Millisecond),
        WithLongPressDuration (2 * time.Second),
        WithPinMode machine.PinMode.PinInputPulldown] : Controller α) =
      { buttons := [], actions := fun _ => none, debounceDur := 20000000,
        longPressDur := 2000000000, pinMode := machine.PinMode.PinInputPulldown }) := by
  refine ⟨⟨?_, ?_, rfl, rfl, rfl, fun _ _ => rfl⟩, ⟨rfl, rfl, rfl⟩, ?_, ⟨?_, ?_, ?_⟩, ?_⟩
  · simp [NewController, time.Millisecond]
  · simp [NewController, time.Second]
  · simp [NewController, List.foldl_append]
  · simp only [NewController, List.foldl_append, List.foldl_cons, foldl_otherThanDebounce]
    rfl
  · simp only [NewController, List.foldl_append, List.foldl_cons, foldl_otherThanLongPress]
    rfl
  · simp only [NewController, List.foldl_append, List.foldl_cons, foldl_otherThanPinMode]
    rfl
  · simp [NewController, WithDebounceDuration, WithLongPressDuration, WithPinMode,
      time.Millisecond, time.Second]

/-! ## Registration -/

theorem Register_lookup (c : Controller α) (now : Int) (pin : machine.Pin)
    (actionType : ActionType) (action : α) (kind : ActionType) (j : Nat) :
    (c.Register now pin actionType action).lookup kind j =
      if kind = actionType ∧ j = c.buttons.length then some action else c.lookup kind j := by
  by_cases hk : kind = actionType
  · subst hk
    by_cases hj : j = c.buttons.length
    · simp [Controller.Register, Controller.lookup, hj]
    · cases hm : c.actions kind <;>
        simp [Controller.Register, Controller.lookup, hj, hm]
  · simp [Controller.Register, Controller.lookup, hk]

/-- Claim C11. `Register` appends exactly one button, with `isPressed` and
`longPressed` false, `pullup = (pinMode == PinInputPullup)`, `recordedAt` the
clock reading and `pressedAt` the zero time; its id is the number of buttons
before the call; the buttons registered before are unchanged; the registry
gets the callback under `(actionType, id)` and is unchanged at every other
key; the configuration is unchanged. Registering the same pin twice appends
two buttons, with consecutive ids, each with its own callback. -/
theorem Register_effect (c : Controller α) (now now2 : Int) (pin : machine.Pin)
    (actionType actionType2 : ActionType) (action action2 : α) (kind : ActionType) (j : Nat) :
    (c.Register now pin actionType action).buttons =
      c.buttons ++ [{ pin := pin, pullup := decide (c.pinMode = machine.PinMode.PinInputPullup),
                      isPressed := false, longPressed := false,
                      recordedAt := now, pressedAt := 0 }] ∧
    (c.Register now pin actionType action).buttons.length = c.buttons.length + 1 ∧
    (c.Register now pin actionType action).buttons[c.buttons.length]? =
      some { pin := pin, pullup := decide (c.pinMode = machine.PinMode.PinInputPullup),
             isPressed := false, longPressed := false, recordedAt := now, pressedAt := 0 } ∧
    (c.Register now pin actionType action).buttons.take c.buttons.length = c.buttons ∧
    (c.Register now pin actionType action).lookup actionType c.buttons.length = some action ∧
    (c.Register now pin actionType action).lookup kind j =
      (if kind = actionType ∧ j = c.buttons.length then some action else c.lookup kind j) ∧
    ((c.Register now pin actionType action).debounceDur = c.debounceDur ∧
      (c.Register now pin actionType action).longPressDur = c.longPressDur ∧
      (c.Register now pin actionType action).pinMode = c.pinMode) ∧
    (((c.Register now pin actionType action).Register now2 pin actionType2 action2).buttons =
      c.buttons ++
        [{ pin := pin, pullup := decide (c.pinMode = machine.PinMode.PinInputPullup),
           recordedAt := now },
         { pin := pin, pullup := decide (c.pinMode = machine.PinMode.PinInputPullup),
           recordedAt := now2 }] ∧
      ((c.Register now pin actionType action).Register now2 pin actionType2 action2).lookup
        actionType c.buttons.length = some action ∧
      ((c.Register now pin actionType action).Register now2 pin actionType2 action2).lookup
        actionType2 (c.buttons.length + 1) = some action2) := by
  have hb : (c.Register now pin actionType action).buttons =
      c.buttons ++ [{ pin := pin, pullup := decide (c.pinMode = machine.PinMode.PinInputPullup),
                      recordedAt := now }] := rfl
  have hlen : (c.Register now pin actionType action).buttons.length = c.buttons.length + 1 := by
    rw [hb]; simp
  refine ⟨hb, hlen, ?_, ?_, ?_, Register_lookup c now pin actionType action kind j,
    ⟨rfl, rfl, rfl⟩, ?_, ?_, ?_⟩
  · rw [hb]; simp
  · rw [hb]; simp
  · rw [Register_lookup]; simp
  · show (c.Register now pin actionType action).buttons ++ _ = _
    rw [hb]
    simp [Controller.Register]
  · rw [Register_lookup, Register_lookup, hlen]
    simp
  · rw [Register_lookup, hlen]
    simp

/-! ## The button states do not depend on the registry -/

theorem updateEdge_fst (c : Controller α) (now : Int) (get : machine.Pin → Bool)
    (i : Nat) (b : button) :
    (c.updateEdge now get i b).1 =
      if b.readState get ≠ b.isPressed ∧ time.Sub now b.recordedAt > c.debounceDur then
        if b.readState get = true then
          { b with isPressed := b.readState get, recordedAt := now, pressedAt := now }
        else { b with isPressed := b.readState get, recordedAt := now }
      else b := by
  unfold Controller.updateEdge
  simp only
  split_ifs <;> rfl

theorem updateLong_fst (c : Controller α) (now : Int) (i : Nat) (b : button) :
    (c.updateLong now i b).1 =
      if b.isPressed = true ∧ time.Sub now b.pressedAt ≥ c.longPressDur then
        if b.longPressed = false then { b with longPressed := true } else b
      else if b.longPressed = false then { b with longPressed := false } else b := by
  unfold Controller.updateLong
  split_ifs <;> rfl

/-- The button written back by the loop body depends on the controller only
through the two durations, on the pin levels only through the level of the
button's own pin, and not on the button id. -/
theorem updateButton_fst_congr {β : Type} (c : Controller α) (d : Controller β)
    (hd : c.debounceDur = d.debounceDur) (hl : c.longPressDur = d.longPressDur)
    (now : Int) (g1 g2 : machine.Pin → Bool) (i j : Nat) (b : button)
    (hg : g1 b.pin = g2 b.pin) :
    (c.updateButton now g1 i b).1 = (d.updateButton now g2 j b).1 := by
  have hr : b.readState g1 = b.readState g2 := by simp [button.readState, hg]
  have he : (c.updateEdge now g1 i b).1 = (d.updateEdge now g2 j b).1 := by
    rw [updateEdge_fst, updateEdge_fst, hr, hd]
  simp only [Controller.updateButton]
  rw [updateLong_fst, updateLong_fst, he, hl]

theorem updateLoop_fst_congr {β : Type} (c : Controller α) (d : Controller β)
    (hd : c.debounceDur = d.debounceDur) (hl : c.longPressDur = d.longPressDur)
    (now : Int) (get : machine.Pin → Bool) :
    ∀ (bs : List button) (k : Nat),
      (c.updateLoop now get k bs).1 = bs.map (fun b => (d.updateButton now get 0 b).1) := by
  intro bs
  induction bs with
  | nil => intro k; rfl
  | cons b rest ih =>
    intro k
    simp only [Controller.updateLoop, List.map_cons, ih (k + 1)]
    rw [updateButton_fst_congr c d hd hl now get get k 0 b rfl]

theorem updateButton_registered (c : Controller α) (now : Int) (get : machine.Pin → Bool)
    (i : Nat) (b : button) :
    ∀ e ∈ (c.updateButton now get i b).2, c.lookup e.kind i = some e.action := by
  intro e he
  simp only [Controller.updateButton, List.mem_append] at he
  rcases he with he | he
  · unfold Controller.updateEdge at he
    cases hk : c.lookup SingleClick i <;> simp only [hk] at he <;> split_ifs at he <;> simp_all
  · unfold Controller.updateLong at he
    cases hk : c.lookup LongPress i <;> simp only [hk] at he <;> split_ifs at he <;> simp_all

theorem updateLoop_registered (c : Controller α) (now : Int) (get : machine.Pin → Bool) :
    ∀ (bs : List button) (k : Nat),
      ∀ e ∈ (c.updateLoop now get k bs).2, c.lookup e.kind e.id = some e.action := by
  intro bs
  induction bs with
  | nil => intro k e he; simp [Controller.updateLoop] at he
  | cons b rest ih =>
    intro k e he
    simp only [Controller.updateLoop, List.mem_append] at he
    rcases he with he | he
    · rw [updateButton_id c now get k b e he]
      exact updateButton_registered c now get k b e he
    · exact ih (k + 1) e he

/-- Claim C12. `Update` is a total function of the controller, the clock
reading and the pin levels. The button states it produces are the same
whatever registry `acts` the controller holds; with an empty registry it
starts no callback; and every callback it starts is the one found in the
registry under the kind and id of the event. -/
theorem Update_registry_independent (c : Controller α)
    (acts : ActionType → Option (Nat → Option α)) (now : Int) (get : machine.Pin → Bool) :
    (({ c with actions := acts } : Controller α).Update now get).1.buttons
      = (c.Update now get).1.buttons ∧
    (({ c with actions := fun _ => none } : Controller α).Update now get).2 = [] ∧
    (∀ e ∈ (c.Update now get).2, c.lookup e.kind e.id = some e.action) := by
  refine ⟨?_, ?_, ?_⟩
  · simp only [Controller.Update]
    rw [updateLoop_fst_congr ({ c with actions := acts } : Controller α) c rfl rfl,
      updateLoop_fst_congr c c rfl rfl]
  · have h := updateLoop_registered ({ c with actions := fun _ => none } : Controller α)
      now get c.buttons 0
    cases hE : (({ c with actions := fun _ => none } : Controller α).Update now get).2 with
    | nil => rfl
    | cons e es =>
      have he : e ∈ (({ c with actions := fun _ => none } : Controller α).updateLoop
          now get 0 c.buttons).2 := by
        have : (({ c with actions := fun _ => none } : Controller α).Update now get).2 =
            (({ c with actions := fun _ => none } : Controller α).updateLoop
              now get 0 c.buttons).2 := rfl
        rw [← this, hE]; simp
      have := h e he
      simp [Controller.lookup] at this
  · exact updateLoop_registered c now get c.buttons 0

/-! ## Classification of a release edge, detection of a long press -/

theorem Sub_eq_of_valid (t u : Int) (h : time.validDuration (t - u)) :
    time.Sub t u = t - u := by
  obtain ⟨h1, h2⟩ := h
  unfold time.Sub
  simp only [time.maxDuration, time.minDuration] at *
  split_ifs <;> omega

/-- Claim C13. `Update` on a button with a SingleClick callback `a`, with
`isPressed` true, sampled released, at a clock reading with
`now.Sub(recordedAt) > debounceDur`: the release edge is committed, and the
callbacks started for the button are exactly the SingleClick callback if
`now.Sub(pressedAt) < longPressDur`, and none at all otherwise, whatever
`longPressed` is. `now.Sub(x)` is `now - x` whenever that fits a duration. -/
theorem release_edge_classification (c : Controller α) (i : Nat) (b : button) (a : α)
    (now : Int) (get : machine.Pin → Bool)
    (hb : c.buttons[i]? = some b)
    (ha : c.lookup SingleClick i = some a)
    (hp : b.isPressed = true)
    (hs : b.readState get = false)
    (hdeb : c.debounceDur < time.Sub now b.recordedAt) :
    (c.Update now get).1.buttons[i]? = some { b with isPressed := false, recordedAt := now } ∧
    eventsOf i (c.Update now get).2 =
      (if time.Sub now b.pressedAt < c.longPressDur
        then [{ kind := SingleClick, id := i, action := a }] else []) ∧
    (({ kind := SingleClick, id := i, action := a } : Invocation α) ∈ (c.Update now get).2 ↔
      time.Sub now b.pressedAt < c.longPressDur) ∧
    (time.validDuration (now - b.recordedAt) → time.Sub now b.recordedAt = now - b.recordedAt) ∧
    (time.validDuration (now - b.pressedAt) → time.Sub now b.pressedAt = now - b.pressedAt) := by
  obtain ⟨k1, k2⟩ := Update_button c now get i b hb
  rw [updateButton_release c now get i b hp hs hdeb] at k1 k2
  have hst : c.started SingleClick i = [{ kind := SingleClick, id := i, action := a }] := by
    simp [Controller.started, ha]
  rw [hst] at k2
  refine ⟨k1, k2, ?_, Sub_eq_of_valid _ _, Sub_eq_of_valid _ _⟩
  have hmem : ({ kind := SingleClick, id := i, action := a } : Invocation α) ∈ (c.Update now get).2
      ↔ ({ kind := SingleClick, id := i, action := a } : Invocation α) ∈
          eventsOf i (c.Update now get).2 := by
    simp [eventsOf]
  rw [hmem, k2]
  split_ifs with h <;> simp [h]

/-- The button of `clickController`, pressed since 0, sampled released at 200ms. -/
theorem release_edge_classification_witness :
    ((clickController.Update 0 allHigh).1.Update (200 * time.Millisecond) allLow).1.buttons[0]?
      = some { pin := 15, pullup := true, isPressed := false,
               recordedAt := 200 * time.Millisecond, pressedAt := 0 } ∧
    eventsOf 0 ((clickController.Update 0 allHigh).1.Update (200 * time.Millisecond) allLow).2 =
      (if time.Sub (200 * time.Millisecond) 0 < (clickController.Update 0 allHigh).1.longPressDur
        then [{ kind := SingleClick, id := 0, action := "single click" }] else []) ∧
    (({ kind := SingleClick, id := 0, action := "single click" } : Invocation String) ∈
        ((clickController.Update 0 allHigh).1.Update (200 * time.Millisecond) allLow).2 ↔
      time.Sub (200 * time.Millisecond) 0 < (clickController.Update 0 allHigh).1.longPressDur) ∧
    (time.validDuration (200 * time.Millisecond - 0) →
      time.Sub (200 * time.Millisecond) 0 = 200 * time.Millisecond - 0) ∧
    (time.validDuration (200 * time.Millisecond - 0) →
      time.Sub (200 * time.Millisecond) 0 = 200 * time.Millisecond - 0) :=
  release_edge_classification (clickController.Update 0 allHigh).1 0
    { pin := 15, pullup := true, isPressed := true, recordedAt := 0, pressedAt := 0 }
    "single click" (200 * time.Millisecond) allLow
    (by rfl) (by rfl) (by rfl) (by rfl) (by decide)

theorem updateEdge_pressed_events (c : Controller α) (now : Int) (get : machine.Pin → Bool)
    (i : Nat) (b : button) (hp : (c.updateEdge now get i b).1.isPressed = true) :
    (c.updateEdge now get i b).2 = [] := by
  by_cases h1 : b.readState get ≠ b.isPressed ∧ time.Sub now b.recordedAt > c.debounceDur
  · cases h2 : b.readState get
    · have hbp : b.isPressed = true := by
        have := h1.1
        rw [h2] at this
        cases hq : b.isPressed
        · exact absurd hq.symm this
        · rfl
      rw [updateEdge_fst] at hp
      simp [h1.2, h2, hbp] at hp
    · have hne : ¬ (true = b.isPressed) := by rw [← h2]; exact h1.1
      have hlt : c.debounceDur < time.Sub now b.recordedAt := h1.2
      simp [Controller.updateEdge, h2, hne, hlt]
  · simp [Controller.updateEdge, h1]

/-- Claim C14. For a button whose committed `isPressed` is true after the edge
processing of an `Update` (lines 73-82) and whose press has then lasted
`now.Sub(pressedAt) >= longPressDur`, wherever the call lies relative to the
debounce window and whatever it samples: after the call `longPressed` is true,
and the callbacks started for the button are exactly the LongPress callback
registered for its id (none if there is none) when `longPressed` was false,
and none at all when `longPressed` was already true. -/
theorem long_press_detection (c : Controller α) (i : Nat) (b : button)
    (now : Int) (get : machine.Pin → Bool)
    (hb : c.buttons[i]? = some b)
    (hp : (c.updateEdge now get i b).1.isPressed = true)
    (hge : c.longPressDur ≤ time.Sub now (c.updateEdge now get i b).1.pressedAt) :
    (c.Update now get).1.buttons[i]? =
      some { (c.updateEdge now get i b).1 with longPressed := true } ∧
    eventsOf i (c.Update now get).2 =
      (if b.longPressed = true then [] else c.started LongPress i) := by
  obtain ⟨k1, k2⟩ := Update_button c now get i b hb
  have he := updateEdge_pressed_events c now get i b hp
  have hl : (c.updateEdge now get i b).1.longPressed = b.longPressed :=
    (updateEdge_frame c now get i b).2.2
  have hstep : c.updateButton now get i b =
      ({ (c.updateEdge now get i b).1 with longPressed := true },
        if b.longPressed = true then [] else c.started LongPress i) := by
    simp only [Controller.updateButton, he, List.nil_append]
    generalize (c.updateEdge now get i b).1 = b1 at hp hge hl
    cases hlp : b.longPressed
    · rw [hlp] at hl
      simp [Controller.updateLong, hp, hge, hl, Controller.started]
    · rw [hlp] at hl
      simp only [Controller.updateLong, hp, hge, hl, and_self, if_true, Bool.true_eq_false,
        if_false]
      cases b1; simp_all
  rw [hstep] at k1 k2
  exact ⟨k1, k2⟩

/-- The button of `slowDebounceController` (debounce 1s, long press 500ms),
pressed since 0 and sampled released at 600ms, inside the debounce window. -/
theorem long_press_detection_witness :
    ((slowDebounceController.Update 0 allHigh).1.Update (600 * time.Millisecond) allLow).1.buttons[0]?
      = some { pin := 15, pullup := true, isPressed := true, longPressed := true,
               recordedAt := 0, pressedAt := 0 } ∧
    eventsOf 0
        ((slowDebounceController.Update 0 allHigh).1.Update (600 * time.Millisecond) allLow).2
      = [{ kind := LongPress, id := 0, action := "long press" }] :=
  long_press_detection (slowDebounceController.Update 0 allHigh).1 0
    { pin := 15, pullup := true, isPressed := true, recordedAt := 0, pressedAt := 0 }
    (600 * time.Millisecond) allLow (by rfl) (by rfl) (by decide)

/-! ## `longPressed` only ever goes from false to true -/

theorem updateEdge_kind (c : Controller α) (now : Int) (get : machine.Pin → Bool)
    (i : Nat) (b : button) :
    ∀ e ∈ (c.updateEdge now get i b).2, e.kind = SingleClick := by
  intro e he
  unfold Controller.updateEdge at he
  cases hl : c.lookup SingleClick i <;> simp only [hl] at he <;> split_ifs at he <;> simp_all

/-- The long-press detector pays for every callback it starts by setting
`longPressed`, and never clears the flag. -/
theorem updateLong_budget (c : Controller α) (now : Int) (i : Nat) (b : button) :
    (c.updateLong now i b).2.length + (if (c.updateLong now i b).1.longPressed = true then 0 else 1)
      ≤ (if b.longPressed = true then 0 else 1) := by
  have hs := started_length c LongPress i
  by_cases h1 : b.isPressed = true ∧ time.Sub now b.pressedAt ≥ c.longPressDur
  · cases hl : b.longPressed
    · have : (c.updateLong now i b) = ({ b with longPressed := true }, c.started LongPress i) := by
        simp [Controller.updateLong, h1.1, h1.2, hl, Controller.started]
      rw [this]
      simpa using hs
    · simp [Controller.updateLong, h1.1, h1.2, hl]
  · cases hl : b.longPressed <;> simp [Controller.updateLong, h1, hl]

theorem updateButton_budget (c : Controller α) (now : Int) (get : machine.Pin → Bool)
    (i : Nat) (b : button) :
    ((c.updateButton now get i b).2.filter (fun e => decide (e.kind = LongPress))).length +
        (if (c.updateButton now get i b).1.longPressed = true then 0 else 1)
      ≤ (if b.longPressed = true then 0 else 1) := by
  have he : (c.updateEdge now get i b).2.filter (fun e => decide (e.kind = LongPress)) = [] := by
    rw [List.filter_eq_nil_iff]
    intro e hmem
    have hk := updateEdge_kind c now get i b e hmem
    simp only [hk, decide_eq_true_eq]
    decide
  have hl : (c.updateEdge now get i b).1.longPressed = b.longPressed :=
    (updateEdge_frame c now get i b).2.2
  have hb := updateLong_budget c now i (c.updateEdge now get i b).1
  rw [hl] at hb
  have hf := List.length_filter_le (fun e : Invocation α => decide (e.kind = LongPress))
    (c.updateLong now i (c.updateEdge now get i b).1).2
  simp only [Controller.updateButton, List.filter_append, he, List.nil_append]
  omega

theorem buttonUpdates_budget (c : Controller α) (i : Nat)
    (calls : List (Int × (machine.Pin → Bool))) :
    ∀ b : button,
      ((c.buttonUpdates i b calls).2.filter (fun e => decide (e.kind = LongPress))).length +
          (if (c.buttonUpdates i b calls).1.longPressed = true then 0 else 1)
        ≤ (if b.longPressed = true then 0 else 1) := by
  induction calls with
  | nil => intro b; simp [Controller.buttonUpdates]
  | cons s calls ih =>
    intro b
    have h1 := updateButton_budget c s.1 s.2 i b
    have h2 := ih (c.updateButton s.1 s.2 i b).1
    simp only [Controller.buttonUpdates, List.filter_append, List.length_append]
    omega

/-- Claim C16. For every button and every sequence of `Update` calls (a single
call included): if `longPressed` is true before, it is true after; and the
calls together start the LongPress callback of the button at most once. -/
theorem longPressed_monotone (c : Controller α) (i : Nat) (b : button)
    (calls : List (Int × (machine.Pin → Bool))) (now : Int) (get : machine.Pin → Bool)
    (hb : c.buttons[i]? = some b) :
    (∃ b1, (c.Update now get).1.buttons[i]? = some b1 ∧
      (b.longPressed = true → b1.longPressed = true)) ∧
    (∃ b1, (c.Updates calls).1.buttons[i]? = some b1 ∧
      (b.longPressed = true → b1.longPressed = true)) ∧
    ((eventsOf i (c.Updates calls).2).filter (fun e => decide (e.kind = LongPress))).length
      ≤ 1 := by
  obtain ⟨k1, _⟩ := Update_button c now get i b hb
  obtain ⟨k3, k4⟩ := Updates_button i calls c b hb
  have h1 := updateButton_budget c now get i b
  have h2 := buttonUpdates_budget c i calls b
  refine ⟨⟨_, k1, ?_⟩, ⟨_, k3, ?_⟩, ?_⟩
  · intro hl
    rw [if_pos hl] at h1
    by_contra hne
    rw [if_neg hne] at h1
    omega
  · intro hl
    rw [if_pos hl] at h2
    by_contra hne
    rw [if_neg hne] at h2
    omega
  · rw [k4]
    have : (if b.longPressed = true then 0 else 1) ≤ 1 := by split_ifs <;> omega
    omega

/-- The button of `holdController` after its first long press (pressed at 0,
polled at 1000ms, so `longPressed` is set): released at 1200ms and pressed
again from 1300ms to 2400ms. -/
theorem longPressed_monotone_witness :
    (∃ b1, ((holdController.Updates [(0, allHigh), (1000 * time.Millisecond, allHigh)]).1.Update
        (1200 * time.Millisecond) allLow).1.buttons[0]? = some b1 ∧
      (({ pin := 15, pullup := true, isPressed := true, longPressed := true,
          recordedAt := 0, pressedAt := 0 } : button).longPressed = true →
        b1.longPressed = true)) ∧
    (∃ b1, ((holdController.Updates [(0, allHigh), (1000 * time.Millisecond, allHigh)]).1.Updates
        ((1200 * time.Millisecond, allLow) :: polls 1300 100 12 allHigh)).1.buttons[0]?
        = some b1 ∧
      (({ pin := 15, pullup := true, isPressed := true, longPressed := true,
          recordedAt := 0, pressedAt := 0 } : button).longPressed = true →
        b1.longPressed = true)) ∧
    ((eventsOf 0 ((holdController.Updates
        [(0, allHigh), (1000 * time.Millisecond, allHigh)]).1.Updates
        ((1200 * time.Millisecond, allLow) :: polls 1300 100 12 allHigh)).2).filter
        (fun e => decide (e.kind = LongPress))).length ≤ 1 :=
  longPressed_monotone (holdController.Updates [(0, allHigh), (1000 * time.Millisecond, allHigh)]).1
    0 { pin := 15, pullup := true, isPressed := true, longPressed := true,
        recordedAt := 0, pressedAt := 0 }
    ((1200 * time.Millisecond, allLow) :: polls 1300 100 12 allHigh)
    (1200 * time.Millisecond) allLow (by rfl)

/-! ## What `Update` leaves alone -/

theorem updateButton_frame (c : Controller α) (now : Int) (get : machine.Pin → Bool)
    (i : Nat) (b : button) :
    (c.updateButton now get i b).1.pin = b.pin ∧
    (c.updateButton now get i b).1.pullup = b.pullup := by
  have h1 := updateEdge_frame c now get i b
  have h2 := updateLong_frame c now i (c.updateEdge now get i b).1
  simp only [Controller.updateButton]
  exact ⟨h2.1.trans h1.1, h2.2.1.trans h1.2.1⟩

/-- Claim C17. `Update` leaves the number of buttons, the pin and the pull-up
flag of every button, the registry, both durations and the pin mode
unchanged; and there is one function `f` of the two durations, the clock
reading, the level of a button's own pin and that button's previous state
that gives the new state of every button of every controller, so no button's
new state depends on another button, on another pin or on the registry. -/
theorem Update_frame (c : Controller α) (now : Int) (get : machine.Pin → Bool) :
    (c.Update now get).1.buttons.length = c.buttons.length ∧
    (c.Update now get).1.buttons.map (fun b => b.pin) = c.buttons.map (fun b => b.pin) ∧
    (c.Update now get).1.buttons.map (fun b => b.pullup) = c.buttons.map (fun b => b.pullup) ∧
    (c.Update now get).1.actions = c.actions ∧
    (c.Update now get).1.debounceDur = c.debounceDur ∧
    (c.Update now get).1.longPressDur = c.longPressDur ∧
    (c.Update now get).1.pinMode = c.pinMode ∧
    (∃ f : Int → Int → Int → Bool → button → button,
      ∀ (d : Controller α) (t : Int) (g : machine.Pin → Bool),
        (d.Update t g).1.buttons =
          d.buttons.map (fun b => f d.debounceDur d.longPressDur t (g b.pin) b)) := by
  have hmap : (c.Update now get).1.buttons =
      c.buttons.map (fun b => (c.updateButton now get 0 b).1) :=
    updateLoop_fst_congr c c rfl rfl now get c.buttons 0
  refine ⟨?_, ?_, ?_, rfl, rfl, rfl, rfl, ?_⟩
  · rw [hmap]; simp
  · rw [hmap, List.map_map]
    apply List.map_congr_left
    intro b _
    exact (updateButton_frame c now get 0 b).1
  · rw [hmap, List.map_map]
    apply List.map_congr_left
    intro b _
    exact (updateButton_frame c now get 0 b).2
  · refine ⟨fun dd ld t level b =>
      (({ buttons := [], actions := fun _ => none, debounceDur := dd, longPressDur := ld,
          pinMode := machine.PinMode.PinInput } : Controller Unit).updateButton
        t (fun _ => level) 0 b).1, ?_⟩
    intro d t g
    have hd : (d.Update t g).1.buttons = d.buttons.map (fun b => (d.updateButton t g 0 b).1) :=
      updateLoop_fst_congr d d rfl rfl t g d.buttons 0
    rw [hd]
    apply List.map_congr_left
    intro b _
    exact updateButton_fst_congr d
      ({ buttons := [], actions := fun _ => none, debounceDur := d.debounceDur,
         longPressDur := d.longPressDur, pinMode := machine.PinMode.PinInput } : Controller Unit)
      rfl rfl t g (fun _ => g b.pin) 0 0 b rfl

/-! ## Controllers built by a program -/

theorem foldl_builtin (os : List BuiltinOption) :
    ∀ ctrl : Controller α,
      ((os.map BuiltinOption.toOption).foldl (fun ctrl opt => opt ctrl) ctrl).buttons
        = ctrl.buttons ∧
      ((os.map BuiltinOption.toOption).foldl (fun ctrl opt => opt ctrl) ctrl).actions
        = ctrl.actions := by
  induction os with
  | nil => intro ctrl; exact ⟨rfl, rfl⟩
  | cons o os ih =>
    intro ctrl
    simp only [List.map_cons, List.foldl_cons]
    obtain ⟨h1, h2⟩ := ih (o.toOption ctrl)
    rw [h1, h2]
    cases o <;> exact ⟨rfl, rfl⟩

theorem NewController_builtin (os : List BuiltinOption) :
    (NewController (os.map BuiltinOption.toOption) : Controller α).buttons = [] ∧
    ∀ kind id, (NewController (os.map BuiltinOption.toOption) : Controller α).lookup kind id
      = none := by
  obtain ⟨h1, h2⟩ := foldl_builtin os
    ({ buttons := [], actions := fun _ => none, debounceDur := 50 * time.Millisecond,
       longPressDur := 1 * time.Second, pinMode := machine.PinMode.PinInputPullup } : Controller α)
  refine ⟨h1, fun kind id => ?_⟩
  simp only [Controller.lookup, NewController, h2]

theorem Update_length (c : Controller α) (now : Int) (get : machine.Pin → Bool) :
    (c.Update now get).1.buttons.length = c.buttons.length := by
  have hmap : (c.Update now get).1.buttons =
      c.buttons.map (fun b => (c.updateButton now get 0 b).1) :=
    updateLoop_fst_congr c c rfl rfl now get c.buttons 0
  rw [hmap]; simp

/-- The registry invariant is kept by `Register` and `Update`; entries, once
made, stay; and every callback started is still in the registry at the end. -/
theorem exec_registry (calls : List (Call α)) :
    ∀ c : Controller α,
      (∀ id kind, (c.lookup kind id).isSome = true →
        id < c.buttons.length ∧ ∀ k2, (c.lookup k2 id).isSome = true → k2 = kind) →
      (∀ id, id < c.buttons.length → ∃ kind, (c.lookup kind id).isSome = true) →
      (∀ id kind, ((c.exec calls).1.lookup kind id).isSome = true →
        id < (c.exec calls).1.buttons.length ∧
        ∀ k2, ((c.exec calls).1.lookup k2 id).isSome = true → k2 = kind) ∧
      (∀ id, id < (c.exec calls).1.buttons.length →
        ∃ kind, ((c.exec calls).1.lookup kind id).isSome = true) ∧
      (∀ kind id a, c.lookup kind id = some a → (c.exec calls).1.lookup kind id = some a) ∧
      (∀ e ∈ (c.exec calls).2, (c.exec calls).1.lookup e.kind e.id = some e.action) := by
  induction calls with
  | nil =>
    intro c hA hB
    exact ⟨hA, hB, fun _ _ _ h => h, fun e he => by simp [Controller.exec] at he⟩
  | cons call calls ih =>
    intro c hA hB
    cases call with
    | register now pin actionType action =>
      have hlen : (c.Register now pin actionType action).buttons.length = c.buttons.length + 1 := by
        simp [Controller.Register]
      have hA1 : ∀ id kind, ((c.Register now pin actionType action).lookup kind id).isSome = true →
          id < (c.Register now pin actionType action).buttons.length ∧
          ∀ k2, ((c.Register now pin actionType action).lookup k2 id).isSome = true →
            k2 = kind := by
        intro id kind h
        rw [Register_lookup] at h
        rw [hlen]
        by_cases hid : id = c.buttons.length
        · subst hid
          have hnone : ∀ k, (c.lookup k c.buttons.length).isSome = true → False := by
            intro k hk
            have := (hA _ k hk).1
            omega
          by_cases hk : kind = actionType
          · refine ⟨by omega, fun k2 h2 => ?_⟩
            rw [Register_lookup] at h2
            by_cases hk2 : k2 = actionType
            · rw [hk2, hk]
            · simp only [hk2, false_and, if_false] at h2
              exact (hnone k2 h2).elim
          · simp only [hk, false_and, if_false] at h
            exact (hnone kind h).elim
        · simp only [hid, and_false, if_false] at h
          obtain ⟨h1, h2⟩ := hA id kind h
          refine ⟨by omega, fun k2 h3 => ?_⟩
          rw [Register_lookup] at h3
          simp only [hid, and_false, if_false] at h3
          exact h2 k2 h3
      have hB1 : ∀ id, id < (c.Register now pin actionType action).buttons.length →
          ∃ kind, ((c.Register now pin actionType action).lookup kind id).isSome = true := by
        intro id h
        rw [hlen] at h
        by_cases hid : id = c.buttons.length
        · exact ⟨actionType, by rw [Register_lookup]; simp [hid]⟩
        · obtain ⟨kind, hk⟩ := hB id (by omega)
          exact ⟨kind, by rw [Register_lookup]; simpa [hid] using hk⟩
      obtain ⟨j1, j2, j3, j4⟩ := ih (c.Register now pin actionType action) hA1 hB1
      refine ⟨j1, j2, ?_, j4⟩
      intro kind id a h
      apply j3
      rw [Register_lookup]
      have hlt := (hA id kind (by rw [h]; rfl)).1
      have hid : id ≠ c.buttons.length := by omega
      simpa [hid] using h
    | update now get =>
      have hlen := Update_length c now get
      have hlk : ∀ kind id, (c.Update now get).1.lookup kind id = c.lookup kind id :=
        fun _ _ => rfl
      have hA1 : ∀ id kind, ((c.Update now get).1.lookup kind id).isSome = true →
          id < (c.Update now get).1.buttons.length ∧
          ∀ k2, ((c.Update now get).1.lookup k2 id).isSome = true → k2 = kind := by
        intro id kind h
        rw [hlen]
        exact hA id kind h
      have hB1 : ∀ id, id < (c.Update now get).1.buttons.length →
          ∃ kind, ((c.Update now get).1.lookup kind id).isSome = true := by
        intro id h
        rw [hlen] at h
        exact hB id h
      obtain ⟨j1, j2, j3, j4⟩ := ih (c.Update now get).1 hA1 hB1
      refine ⟨j1, j2, fun kind id a h => j3 kind id a h, ?_⟩
      intro e he
      simp only [Controller.exec, List.mem_append] at he
      rcases he with he | he
      · exact j3 e.kind e.id e.action (updateLoop_registered c now get c.buttons 0 e he)
      · exact j4 e he

/-- Claim C15. In every controller obtained from `NewController` (with any of
the three options) by `Register` and `Update` calls: every button id below
the number of buttons has a callback under exactly one action type, no id at
or above that number has a callback under any action type, and any two
callbacks started during those calls for the same button id are of the same
kind. -/
theorem registry_invariant (os : List BuiltinOption) (calls : List (Call α)) (id : Nat) :
    (id < ((NewController (os.map BuiltinOption.toOption)).exec calls).1.buttons.length →
      ∃! kind, (((NewController (os.map BuiltinOption.toOption)).exec calls).1.lookup
        kind id).isSome = true) ∧
    (((NewController (os.map BuiltinOption.toOption)).exec calls).1.buttons.length ≤ id →
      ∀ kind, ((NewController (os.map BuiltinOption.toOption)).exec calls).1.lookup kind id
        = none) ∧
    (∀ e1 ∈ ((NewController (os.map BuiltinOption.toOption)).exec calls).2,
      ∀ e2 ∈ ((NewController (os.map BuiltinOption.toOption)).exec calls).2,
        e1.id = e2.id → e1.kind = e2.kind) := by
  obtain ⟨n1, n2⟩ := @NewController_builtin α os
  obtain ⟨j1, j2, _, j4⟩ := exec_registry calls (NewController (os.map BuiltinOption.toOption))
    (by intro id kind h; rw [n2] at h; simp at h)
    (by intro id h; rw [n1] at h; simp at h)
  refine ⟨?_, ?_, ?_⟩
  · intro h
    obtain ⟨kind, hk⟩ := j2 id h
    exact ⟨kind, hk, fun k2 h2 => (j1 id kind hk).2 k2 h2⟩
  · intro h kind
    cases hl : ((NewController (os.map BuiltinOption.toOption)).exec calls).1.lookup kind id with
    | none => rfl
    | some a =>
      have := (j1 id kind (by rw [hl]; rfl)).1
      omega
  · intro e1 h1 e2 h2 hid
    have l1 := j4 e1 h1
    have l2 := j4 e2 h2
    rw [hid] at l1
    exact (j1 e2.id e2.kind (by rw [l2]; rfl)).2 e1.kind (by rw [l1]; rfl)

/-! ## While pressed, `pressedAt` is the time of the last transition -/

theorem updateButton_pressedAt (c : Controller α) (now : Int) (get : machine.Pin → Bool)
    (i : Nat) (b : button) (h : b.isPressed = true → b.pressedAt = b.recordedAt) :
    (c.updateButton now get i b).1.isPressed = true →
      (c.updateButton now get i b).1.pressedAt = (c.updateButton now get i b).1.recordedAt := by
  obtain ⟨_, _, h3, h4, h5⟩ := updateLong_frame c now i (c.updateEdge now get i b).1
  simp only [Controller.updateButton, h3, h4, h5]
  rw [updateEdge_fst]
  split_ifs with h1 h2
  · intro _; rfl
  · intro hp
    have h2f : b.readState get = false := by simpa using h2
    rw [h2f] at hp
    simp at hp
  · exact h

theorem exec_pressedAt (calls : List (Call α)) :
    ∀ c : Controller α,
      (∀ b ∈ c.buttons, b.isPressed = true → b.pressedAt = b.recordedAt) →
      ∀ b ∈ (c.exec calls).1.buttons, b.isPressed = true → b.pressedAt = b.recordedAt := by
  induction calls with
  | nil => intro c h; exact h
  | cons call calls ih =>
    intro c h
    cases call with
    | register now pin actionType action =>
      apply ih (c.Register now pin actionType action)
      intro b hb
      simp only [Controller.Register, List.mem_append, List.mem_singleton] at hb
      rcases hb with hb | hb
      · exact h b hb
      · subst hb
        intro hp
        simp at hp
    | update now get =>
      apply ih (c.Update now get).1
      intro b hb
      have hmap : (c.Update now get).1.buttons =
          c.buttons.map (fun b => (c.updateButton now get 0 b).1) :=
        updateLoop_fst_congr c c rfl rfl now get c.buttons 0
      rw [hmap, List.mem_map] at hb
      obtain ⟨b0, hb0, rfl⟩ := hb
      exact updateButton_pressedAt c now get 0 b0 (h b0 hb0)

/-- Claim C18. In every controller obtained from `NewController` (with any of
the three options) by `Register` and `Update` calls, every button with
`isPressed = true` has `pressedAt = recordedAt`. -/
theorem pressedAt_eq_recordedAt (os : List BuiltinOption) (calls : List (Call α)) (b : button)
    (hb : b ∈ ((NewController (os.map BuiltinOption.toOption)).exec calls).1.buttons)
    (hp : b.isPressed = true) :
    b.pressedAt = b.recordedAt := by
  obtain ⟨n1, _⟩ := @NewController_builtin α os
  exact exec_pressedAt calls (NewController (os.map BuiltinOption.toOption))
    (by intro b0 h0; rw [n1] at h0; simp at h0) b hb hp

/-- The basic example program: two buttons registered on pin 15 at -100ms, both
pressed since 0 and polled at 0 and 500ms. -/
theorem pressedAt_eq_recordedAt_witness :
    ({ pin := 15, pullup := true, isPressed := true, recordedAt := 0, pressedAt := 0 } : button) ∈
      ((NewController (([] : List BuiltinOption).map BuiltinOption.toOption)
          : Controller String).exec
        [Call.register (-100 * time.Millisecond) 15 SingleClick "single click",
         Call.register (-100 * time.Millisecond) 15 LongPress "long press",
         Call.update 0 allHigh, Call.update (500 * time.Millisecond) allHigh]).1.buttons ∧
    ({ pin := 15, pullup := true, isPressed := true, recordedAt := 0, pressedAt := 0 }
      : button).pressedAt =
    ({ pin := 15, pullup := true, isPressed := true, recordedAt := 0, pressedAt := 0 }
      : button).recordedAt :=
  ⟨by decide,
    @pressedAt_eq_recordedAt String []
      [Call.register (-100 * time.Millisecond) 15 SingleClick "single click",
       Call.register (-100 * time.Millisecond) 15 LongPress "long press",
       Call.update 0 allHigh, Call.update (500 * time.Millisecond) allHigh]
      { pin := 15, pullup := true, isPressed := true, recordedAt := 0, pressedAt := 0 }
      (by decide) (by rfl)⟩

end gkits
